import Mathlib

/-!
Verification development for the fedikit federation toolkit.

This file shallowly embeds the typed entity / JSON-LD model
(`fedikit/model/entity.py`, `fedikit/model/descriptors.py`,
`fedikit/model/converters.py`, `fedikit/model/langstr.py`), a fragment of the
ActivityStreams vocabulary schema (`fedikit/vocab/object.py`, `link.py`,
`activity.py`, `collection.py`, `document.py`) and the federation request
adapter (`fedikit/federation/server.py`), and proves or refutes the claims of
the specification against the embedding.

Conventions of the embedding:
- Python machine values are modelled exactly where they are decidable:
  strings as `String`, ints as `Int` (Python ints are unbounded), booleans as
  `Bool`.  `datetime` values are modelled by their `isoformat()` string
  (`isoformat` is injective on datetimes), `isoduration.Duration` values by
  their canonical ISO-8601 duration string, and `langcodes.Language` values by
  their normalized BCP-47 tag, so that the codec round trips of those scalar
  types become string identities.
- fallible Python code returns `Except PyErr`, the uncaught-exception monad;
  distinct Python exception classes become distinct `PyErr` constructors.
- Python dicts are modelled as association lists with unique keys in
  insertion order; dict equality is order-insensitive.
- asynchronous functions are modelled as their sequential result (a single
  request is processed sequentially; §5 of the spec).
-/

set_option maxHeartbeats 1000000

namespace Fedikit

/-- A JSON value.  Numbers are integers: every number the embedded code ever
produces or consumes is an int (floats never reach the fragment embedded
here).  `refo` is not JSON: it is the Python `EntityRef` *object* (carrying
its `uri` field) that `Entity.__jsonld__` places verbatim under `"@id"` in
the raw document (entity.py line 171), before that document is handed to the
external JSON-LD expansion. -/
inductive Json : Type where
  | str (s : String)
  | num (n : Int)
  | bool (b : Bool)
  | null
  | arr (xs : List Json)
  | obj (kvs : List (String × Json))
  | refo (u : String)

/-- Uncaught Python exceptions raised by the embedded code. -/
inductive PyErr : Type where
  | keyError (key : String)
  | typeError (msg : String)
  | valueError (msg : String)
  | attributeError (msg : String)
  | assertionError
  | jsonLdError (msg : String)
  | recursionError
  deriving Repr, DecidableEq

/-- Look up a key in an association-list model of a Python dict
(first match; dicts have unique keys). -/
def alist.get (kvs : List (String × α)) (k : String) : Option α :=
  match kvs with
  | [] => Option.none
  | (k1, v) :: rest => if k1 = k then some v else alist.get rest k

/-- `d[k] = v` on the association-list model of a Python dict: replaces the
value in place when the key is present (its position is kept), appends
otherwise. -/
def alist.set (kvs : List (String × α)) (k : String) (v : α) :
    List (String × α) :=
  match kvs with
  | [] => [(k, v)]
  | (k1, w) :: rest =>
      if k1 = k then (k1, v) :: rest else (k1, w) :: alist.set rest k v

/-- `k in d` on the association-list model of a Python dict. -/
def alist.hasKey (kvs : List (String × α)) (k : String) : Bool :=
  (alist.get kvs k).isSome

mutual

/-- A slot item: a scalar value, a nested entity, an entity reference, or one
of the non-scalar Python values that the unchecked constructor can also store
(`None`, a list).  Mirrors the `Slot` item alternatives of
`fedikit/model/entity.py` plus the values the server adapter actually passes.
`dt`, `duration` and `lang` carry the canonical string representation of the
scalar (see the module docstring). -/
inductive Item : Type where
  | str (s : String)
  | boolv (b : Bool)
  | intv (n : Int)
  | dt (iso : String)
  | duration (iso : String)
  | lang (tag : String)
  | langStr (s : String) (tag : String)
  | ref (uri : String)
  | ent (e : Ent)
  | nonev
  | pylist (xs : List Item)

/-- A slot of an entity's `_values` mapping: either the id slot (a bare URI
string) or an ordered sequence of slot items
(`Slot` of `fedikit/model/entity.py`). -/
inductive Slot : Type where
  | idv (u : String)
  | seq (xs : List Item)

/-- An entity instance: its concrete class name, its `_values` mapping
(property URI to slot, insertion-ordered) and its `__extra__` mapping
(property URI to raw JSON-LD).  Mirrors `Entity` of
`fedikit/model/entity.py`. -/
inductive Ent : Type where
  | mk (cls : String) (values : List (String × Slot))
      (extra : List (String × Json))

end

/-- The concrete class name of an entity. -/
def Ent.cls : Ent → String
  | .mk c _ _ => c

/-- The `_values` mapping of an entity. -/
def Ent.values : Ent → List (String × Slot)
  | .mk _ v _ => v

/-- The `__extra__` mapping of an entity. -/
def Ent.extra : Ent → List (String × Json)
  | .mk _ _ e => e

end Fedikit

namespace Fedikit

/-- `http://www.w3.org/2001/XMLSchema#integer` (converters.py). -/
def xsdInteger : String := "http://www.w3.org/2001/XMLSchema#integer"

/-- `http://www.w3.org/2001/XMLSchema#nonNegativeInteger` (converters.py). -/
def xsdNonNegativeInteger : String :=
  "http://www.w3.org/2001/XMLSchema#nonNegativeInteger"

/-- `http://www.w3.org/2001/XMLSchema#dateTime` (converters.py). -/
def xsdDateTime : String := "http://www.w3.org/2001/XMLSchema#dateTime"

mutual

/-- Modelled from the spec (§6.2): the external JSON-LD expansion algorithm
(`pyld.jsonld.expand`), which is not part of this repository.  The serializer
only ever feeds it documents that are already in expanded shape (absolute-IRI
keys, list-valued properties, expanded value/node objects), so the model is
the canonicalization the W3C algorithm performs on that document class:
a string-valued `@type` of a node object becomes a one-element list,
properties whose value is the empty array are dropped, and nested node
objects are canonicalized recursively.  A value object (an object carrying
`@value`) is kept exactly as it is, including its string `@type`; a string
`@id` and a `@language` entry are kept as they are.  The algorithm's one
error path the serializer can reach is the `@id` value check: on a
non-string `@id` value — in particular the `EntityRef` object the raw
document carries there — processing is aborted with an `invalid @id value`
error.  On documents outside this class the model is the identity, a branch
the theorems below never reach. -/
def expandJson : Json → Except PyErr Json
  | .obj kvs =>
      if alist.hasKey kvs "@value" then .ok (.obj kvs)
      else do
        let r ← expandKvs kvs
        .ok (.obj r)
  | j => .ok j

/-- Canonicalize the entries of a node object (see `expandJson`). -/
def expandKvs : List (String × Json) → Except PyErr (List (String × Json))
  | [] => .ok []
  | (k, v) :: rest =>
      if k = "@type" then
        match v with
        | .str s => do
            let r ← expandKvs rest
            .ok (("@type", .arr [.str s]) :: r)
        | _ => do
            let r ← expandKvs rest
            .ok ((k, v) :: r)
      else if k = "@id" then
        match v with
        | .str _ => do
            let r ← expandKvs rest
            .ok ((k, v) :: r)
        | _ => .error (.jsonLdError "invalid @id value")
      else if k = "@language" then do
        let r ← expandKvs rest
        .ok ((k, v) :: r)
      else
        match v with
        | .arr [] => expandKvs rest
        | .arr xs => do
            let l ← expandList xs
            let r ← expandKvs rest
            .ok ((k, .arr l) :: r)
        | _ => do
            let r ← expandKvs rest
            .ok ((k, v) :: r)

/-- Canonicalize the elements of a property's value list (see `expandJson`). -/
def expandList : List Json → Except PyErr (List Json)
  | [] => .ok []
  | x :: rest => do
      let y ← expandJson x
      let r ← expandList rest
      .ok (y :: r)

end

/-- The class table entry giving a vocabulary class's `__uri__`
(`type(self).__uri__` lookups go through this).  Populated below with the
embedded vocabulary fragment. -/
structure ClsUri where
  cls : String
  uri : String

mutual

/-- `converters.jsonld(value, expand=True)` (converters.py lines 28-52) on a
slot item.  The `hasattr(value, "__jsonld__")` branch covers entities and
language strings: an entity delegates to `Entity.__jsonld__(expand=True)`,
which is its raw document run through the external expansion algorithm
(entity.py lines 179-186).  The remaining cases follow the `match` statement
in source order (`str | bool` before `int`, so a bool never reaches the
integer case).  `None`, lists and `EntityRef`s match no case and raise
`TypeError` (the serializer handles `EntityRef` items itself before calling
this). -/
def itemJsonld (uris : List ClsUri) : Item → Except PyErr Json
  | .ent e => do
      let raw ← entJsonldRaw uris e
      expandJson raw
  | .langStr s tag =>
      .ok (.obj [("@value", .str s), ("@language", .str tag)])
  | .str s => .ok (.obj [("@value", .str s)])
  | .boolv b => .ok (.obj [("@value", .bool b)])
  | .intv n =>
      .ok (.obj [("@value", .num n),
        ("@type", .str (if n < 0 then xsdInteger else xsdNonNegativeInteger))])
  | .dt iso => .ok (.obj [("@type", .str xsdDateTime), ("@value", .str iso)])
  | .lang tag => .ok (.obj [("@value", .str tag)])
  | .duration iso => .ok (.obj [("@value", .str iso)])
  | .ref _ => .error (.typeError "cannot convert EntityRef to JSON-LD")
  | .nonev => .error (.typeError "cannot convert NoneType to JSON-LD")
  | .pylist _ => .error (.typeError "cannot convert list to JSON-LD")

/-- One slot item of `Entity.__jsonld__` (entity.py lines 169-176): an
`EntityRef` becomes `{"@id": v}` holding the reference *object* itself (not
its URI string — line 171 puts `v` under `"@id"` unconverted), anything else
goes through `converters.jsonld` with `expand=True`. -/
def slotItemsJsonld (uris : List ClsUri) : List Item → Except PyErr (List Json)
  | [] => .ok []
  | .ref u :: rest => do
      let js ← slotItemsJsonld uris rest
      .ok (.obj [("@id", .refo u)] :: js)
  | i :: rest => do
      let j ← itemJsonld uris i
      let js ← slotItemsJsonld uris rest
      .ok (j :: js)

/-- The `_values` part of the raw document of `Entity.__jsonld__`
(entity.py lines 165-176): an id slot contributes the bare URI string, a
sequence slot contributes the list of converted items. -/
def valuesJsonld (uris : List ClsUri) :
    List (String × Slot) → Except PyErr (List (String × Json))
  | [] => .ok []
  | (u, .idv s) :: rest => do
      let js ← valuesJsonld uris rest
      .ok ((u, .str s) :: js)
  | (u, .seq xs) :: rest => do
      let j ← slotItemsJsonld uris xs
      let js ← valuesJsonld uris rest
      .ok ((u, .arr j) :: js)

/-- The raw (pre-expansion) document of `Entity.__jsonld__`
(entity.py lines 164-178): `{"@type": type(self).__uri__}`, then the
converted `_values`, then the `__extra__` entries verbatim (dict assignment,
so a colliding key overwrites in place). -/
def entJsonldRaw (uris : List ClsUri) (e : Ent) : Except PyErr Json :=
  match e with
  | .mk c values extra =>
      match (uris.find? (fun cu => cu.cls = c)).map ClsUri.uri with
      | Option.none => .error (.attributeError "type object has no __uri__")
      | some typeUri => do
          let vals ← valuesJsonld uris values
          let base := ("@type", Json.str typeUri) :: vals
          .ok (.obj (extra.foldl (fun kvs kv => alist.set kvs kv.1 kv.2) base))

end

/-- `Entity.__jsonld__(expand=True)` (entity.py lines 179-186): the raw
document run through the external JSON-LD expansion algorithm, first node of
the result.  The expansion aborts on a non-string `@id` value, so any
`EntityRef` slot item makes the whole serialization fail. -/
def entJsonldExpand (uris : List ClsUri) (e : Ent) : Except PyErr Json := do
  let raw ← entJsonldRaw uris e
  expandJson raw

/-- Python truthiness of a JSON value (`bool(x)` in converters.py). -/
def pyTruthy : Json → Bool
  | .str s => s ≠ ""
  | .num n => n ≠ 0
  | .bool b => b
  | .null => false
  | .arr xs => !xs.isEmpty
  | .obj kvs => !kvs.isEmpty
  | .refo _ => true

/-- Python `str(x)` of a JSON scalar (`str(document["@value"])` in
converters.py).  Containers stringify to their `repr`, which the embedded
flows never reach (property values in expanded documents carry scalars under
`@value`); they are mapped to a fixed marker. -/
def pyStrJ : Json → String
  | .str s => s
  | .num n => toString n
  | .bool b => if b then "True" else "False"
  | .null => "None"
  | .arr _ => "<list repr>"
  | .obj _ => "<dict repr>"
  | .refo u => "EntityRef(" ++ u ++ ")"

/-- Python `int(x)` of a string (`int(document["@value"])` when the JSON-LD
value is a string): optional sign followed by digits, surrounding ASCII
whitespace allowed; anything else raises `ValueError`. -/
def pyIntOfString (s : String) : Except PyErr Int :=
  let t := s.trim
  let core := if t.startsWith "-" ∨ t.startsWith "+" then t.drop 1 else t
  if core ≠ "" ∧ core.all Char.isDigit then
    .ok (if t.startsWith "-" then -(core.toNat!) else (core.toNat! : Int))
  else .error (.valueError ("invalid literal for int: " ++ s))

/-- Python `int(x)` of a JSON value: ints pass through, bools become 0/1,
strings are parsed, anything else raises `TypeError`. -/
def pyIntJ : Json → Except PyErr Int
  | .num n => .ok n
  | .bool b => .ok (if b then 1 else 0)
  | .str s => pyIntOfString s
  | _ => .error (.typeError "int() argument must be a string or a number")

mutual

/-- Python `==` on JSON values (`bool` and numbers compare numerically;
dicts compare order-insensitively: same size and every entry of the left
dict present and equal in the right one). -/
def pyEqJson : Json → Json → Bool
  | .str s, .str t => s = t
  | .num n, .num m => n = m
  | .bool b, .bool c => b = c
  | .bool b, .num n => (if b then (1 : Int) else 0) = n
  | .num n, .bool b => n = (if b then (1 : Int) else 0)
  | .null, .null => true
  | .arr xs, .arr ys => pyEqJsonList xs ys
  | .obj xs, .obj ys =>
      decide (xs.length = ys.length) && pyEqJsonKvsIncl xs ys
  | _, _ => false
termination_by structural j => j

/-- Python `==` on JSON arrays (elementwise, same length). -/
def pyEqJsonList : List Json → List Json → Bool
  | [], [] => true
  | x :: xs, y :: ys => pyEqJson x y && pyEqJsonList xs ys
  | _, _ => false
termination_by structural xs => xs

/-- Every entry of `xs` occurs, with a `pyEqJson`-equal value, in `ys`. -/
def pyEqJsonKvsIncl : List (String × Json) → List (String × Json) → Bool
  | [], _ => true
  | (k, v) :: rest, ys =>
      (match alist.get ys k with
       | some w => pyEqJson v w
       | Option.none => false) && pyEqJsonKvsIncl rest ys
termination_by structural kvs => kvs

end

/-- Python `==` on the `__extra__` dicts (order-insensitive dict
comparison). -/
def pyEqExtra (xs ys : List (String × Json)) : Bool :=
  decide (xs.length = ys.length) && pyEqJsonKvsIncl xs ys

mutual

/-- Python `==` on slot items, as the embedded classes define it:
- plain strings compare by content, and a `LanguageString` is equal only to
  another `LanguageString` with the same content and tag (langstr.py
  `__eq__`: the `isinstance(other, type(self))` check fails against a plain
  `str` in either evaluation order, since `LanguageString.__eq__` is tried
  first and returns `False` rather than `NotImplemented`);
- `bool` and `int` compare numerically (Python `True == 1`);
- datetimes, durations and language tags compare by their canonical string
  (the model of those scalars);
- `EntityRef`s compare by URI and only to `EntityRef`s (entity.py
  `EntityRef.__eq__`); entities compare per `Entity.__eq__` (entity.py
  lines 132-138): same concrete type, `==` on `_values`, `==` on
  `__extra__`, where dict `==` is order-insensitive;
- `None` equals only `None`; lists compare elementwise;
- values of unrelated types compare unequal. -/
def pyEqItem : Item → Item → Bool
  | .str s, .str t => s = t
  | .langStr s t, .langStr s2 t2 => decide (s = s2) && decide (t = t2)
  | .boolv b, .boolv c => b = c
  | .boolv b, .intv n => (if b then (1 : Int) else 0) = n
  | .intv n, .boolv b => n = (if b then (1 : Int) else 0)
  | .intv n, .intv m => n = m
  | .dt a, .dt b => a = b
  | .duration a, .duration b => a = b
  | .lang a, .lang b => a = b
  | .ref u, .ref v => u = v
  | .ent (.mk c1 v1 e1), .ent (.mk c2 v2 e2) =>
      decide (c1 = c2) &&
        (decide (v1.length = v2.length) && pyEqValuesIncl v1 v2) &&
        pyEqExtra e1 e2
  | .nonev, .nonev => true
  | .pylist xs, .pylist ys => pyEqItems xs ys
  | _, _ => false
termination_by structural i => i

/-- Python `==` on lists of slot items (elementwise, same length). -/
def pyEqItems : List Item → List Item → Bool
  | [], [] => true
  | x :: xs, y :: ys => pyEqItem x y && pyEqItems xs ys
  | _, _ => false
termination_by structural xs => xs

/-- Python `==` on slots: an id slot is a `str`, a sequence slot a `list`;
a `str` never equals a `list`. -/
def pyEqSlot : Slot → Slot → Bool
  | .idv u, .idv v => u = v
  | .seq xs, .seq ys => pyEqItems xs ys
  | _, _ => false
termination_by structural s => s

/-- Every entry of `xs` occurs, with a `pyEqSlot`-equal value, in `ys`. -/
def pyEqValuesIncl : List (String × Slot) → List (String × Slot) → Bool
  | [], _ => true
  | (k, v) :: rest, ys =>
      (match alist.get ys k with
       | some w => pyEqSlot v w
       | Option.none => false) && pyEqValuesIncl rest ys
termination_by structural kvs => kvs

end

/-- Python `==` on the `_values` dicts (order-insensitive dict
comparison). -/
def pyEqValues (xs ys : List (String × Slot)) : Bool :=
  decide (xs.length = ys.length) && pyEqValuesIncl xs ys

/-- `Entity.__eq__` (entity.py lines 132-138): same concrete type, `==` on
`_values`, `==` on `__extra__`. -/
def pyEqEnt : Ent → Ent → Bool
  | .mk c1 v1 e1, .mk c2 v2 e2 =>
      decide (c1 = c2) && pyEqValues v1 v2 && pyEqExtra e1 e2

/-- Lexicographic comparison of character lists by Unicode code point, the
order Python's `list.sort` applies to string keys. -/
def strLeGo : List Char → List Char → Bool
  | [], _ => true
  | _ :: _, [] => false
  | c :: cs, d :: ds =>
      if c.val < d.val then true
      else if d.val < c.val then false
      else strLeGo cs ds

/-- Lexicographic comparison of strings (see `strLeGo`). -/
def strLeB (a b : String) : Bool :=
  strLeGo a.data b.data

/-- Stable insertion sort of an association list by key, modelling Python's
`list.sort(key=lambda kv: kv[0])` in `Entity.__hash__`. -/
def sortInsert (kv : String × α) : List (String × α) → List (String × α)
  | [] => [kv]
  | kv1 :: rest =>
      if strLeB kv1.1 kv.1 then kv1 :: sortInsert kv rest
      else kv :: kv1 :: rest

/-- Sort an association list by key (stable; see `sortInsert`). -/
def sortByKey : List (String × α) → List (String × α)
  | [] => []
  | kv :: rest => sortInsert kv (sortByKey rest)

/-- One mixing step of `Entity.__hash__` (entity.py lines 143-159):
`hv = (37 * hv & 0xFFFFFFFF) + h & 0xFFFFFFFF`, which by Python operator
precedence is `((37 * hv mod 2^32) + h) mod 2^32`. -/
def hashMix (hv h : Nat) : Nat := ((37 * hv) % 2 ^ 32 + h) % 2 ^ 32

/-- `Entity.__hash__` (entity.py lines 143-159), parameterized by the
(unspecified) Python hash functions for the leaf values: `hT` for the
entity's type, `hS` for strings (URIs and id slots), `hI` for slot items and
`hJ` for extra values.  The `_values` entries are visited sorted by URI, an
id slot mixes its string, a sequence slot mixes each item; then the
`__extra__` entries, also sorted by URI. -/
def entHash (hT hS : String → Nat) (hI : Item → Nat) (hJ : Json → Nat)
    (e : Ent) : Nat :=
  match e with
  | .mk c values extra =>
      let hv0 := hT c
      let hv1 := (sortByKey values).foldl
        (fun hv kv =>
          let hv := hashMix hv (hS kv.1)
          match kv.2 with
          | .idv u => hashMix hv (hS u)
          | .seq xs => xs.foldl (fun hv i => hashMix hv (hI i)) hv)
        hv0
      (sortByKey extra).foldl
        (fun hv kv => hashMix (hashMix hv (hS kv.1)) (hJ kv.2)) hv1

/-- Property cardinality: the three descriptor classes of
`fedikit/model/descriptors.py` (`IdProperty`, `SingularProperty`,
`PluralProperty`). -/
inductive PKind : Type where
  | idp
  | sing
  | plur
  deriving Repr, DecidableEq

/-- A Python type annotation, as written on the vocabulary properties.
Forward references (class names in string literals) are represented already
resolved to `clsT` of their class, which is what
`descriptors.py` lines 252-262 compute from the defining module; the
`ReferenceError` branch is unreachable for the embedded vocabulary. -/
inductive PyType : Type where
  | uriT
  | strT
  | boolT
  | intT
  | datetimeT
  | durationT
  | languageT
  | langStrT
  | entityRefT
  | clsT (name : String)
  | seqT (elem : PyType)
  | unionT (ts : List PyType)
  | noneT
  deriving Repr

/-- A resolved element type, the outcome of the hint-flattening loops of
`SingularProperty.parse_jsonld` / `PluralProperty.parse_jsonld`
(`Uri` has become `str`). -/
inductive RType : Type where
  | strT
  | boolT
  | intT
  | datetimeT
  | durationT
  | languageT
  | langStrT
  | entityRefT
  | clsT (name : String)
  | noneT
  | badT
  deriving Repr, DecidableEq

/-- Resolve one member of a (possibly union) hint, per the element loops of
`descriptors.py` (lines 171-185 and 252-266): `Uri` becomes `str`; a nested
generic alias (a `Sequence[...]` inside a union) is not a class and makes
the whole hint fail the `all(isinstance(t, type))` check, represented by
`badT`. -/
def resolveMember : PyType → RType
  | .uriT => .strT
  | .strT => .strT
  | .boolT => .boolT
  | .intT => .intT
  | .datetimeT => .datetimeT
  | .durationT => .durationT
  | .languageT => .languageT
  | .langStrT => .langStrT
  | .entityRefT => .entityRefT
  | .clsT c => .clsT c
  | .noneT => .noneT
  | .seqT _ => .badT
  | .unionT _ => .badT

/-- The hint flattening of `SingularProperty.parse_jsonld`
(descriptors.py lines 241-271): a union is split into its members in
declaration order, a `NewType` (`Uri`) is replaced by its supertype, a bare
class stands alone; a member that is not a class (`badT`) raises
`TypeError`.  A `Sequence[...]` hint is itself not a class and raises
`TypeError`. -/
def resolveSingular (hint : PyType) : Except PyErr (List RType) :=
  let tys := match hint with
    | .unionT ts => ts.map resolveMember
    | .uriT => [.strT]
    | .seqT _ => [.badT]
    | t => [resolveMember t]
  if tys.contains .badT then
    .error (.typeError "expected T or Union[T, ...] where T is a class")
  else .ok tys

/-- The hint flattening of `PluralProperty.parse_jsonld`
(descriptors.py lines 151-189): the hint must be `Sequence[T]` (otherwise
`TypeError`), then the element type is flattened like a singular hint. -/
def resolvePlural (hint : PyType) : Except PyErr (List RType) :=
  match hint with
  | .seqT elem =>
      let tys := match elem with
        | .unionT ts => ts.map resolveMember
        | .uriT => [RType.strT]
        | t => [resolveMember t]
      if tys.contains .badT then
        .error (.typeError "expected Sequence[T] where T is a class")
      else .ok tys
  | _ => .error (.typeError "expected Sequence[T]")

/-- One property descriptor with its declared annotation: name, kind,
property URI, subproperty URIs, type hint. -/
structure PropSpec : Type where
  name : String
  kind : PKind
  uri : String
  subs : List String
  hint : PyType
  deriving Repr

/-- One vocabulary class: its name, its `__uri__` (the inherited one when the
class does not redefine it), its flattened descriptor set (inheritance and
overriding already applied, as Python attribute lookup sees it), and its
ancestry (the class itself, its bases transitively, and `Entity`). -/
structure ClassSpec : Type where
  name : String
  uri : String
  props : List PropSpec
  supers : List String
  deriving Repr

/-- The vocabulary table: the embedded classes plus the registry of
`get_entity_type` (entity.py lines 211-226), mapping each type URI to its
first-registered class. -/
structure CTable : Type where
  classes : List ClassSpec
  registry : List (String × String)

/-- Find a class's spec by name. -/
def CTable.classSpec (tab : CTable) (c : String) : Option ClassSpec :=
  tab.classes.find? (fun cs => cs.name = c)

/-- A class's `__uri__`. -/
def CTable.uriOf (tab : CTable) (c : String) : Option String :=
  (tab.classSpec c).map ClassSpec.uri

/-- `issubclass(c, target)` on the embedded fragment: every class is a
subclass of the abstract root `Entity`, otherwise the target must occur in
the ancestry. -/
def CTable.subClass (tab : CTable) (c target : String) : Bool :=
  decide (target = "Entity") ||
    (match tab.classSpec c with
     | some cs => cs.supers.contains target
     | Option.none => false)

/-- The `ClsUri` list feeding the serializer (`type(self).__uri__`). -/
def CTable.clsUris (tab : CTable) : List ClsUri :=
  tab.classes.map (fun cs => { cls := cs.name, uri := cs.uri })

/-- `getattr(cls, name)` restricted to property descriptors: look up a
descriptor by name on a class (inheritance already flattened in the table). -/
def CTable.descriptor (tab : CTable) (c name : String) : Option PropSpec :=
  match tab.classSpec c with
  | some cs => cs.props.find? (fun p => p.name = name)
  | Option.none => Option.none

/-- `dir(cls)` ordering: `get_descriptors` (entity.py lines 232-242) visits
descriptors in the alphabetical order `dir` produces.  The table stores
properties in source declaration order; this sorts them by name. -/
def CTable.dirProps (tab : CTable) (c : String) : List PropSpec :=
  match tab.classSpec c with
  | some cs =>
      (sortByKey (cs.props.map (fun p => (p.name, p)))).map Prod.snd
  | Option.none => []

/-- `get_uri_descriptors(cls)[uri]` followed by the stable
plural-before-singular sort of `Entity.__from_jsonld__` (entity.py lines
88-91): the descriptors declared at `uri` in `dir` order, non-singular ones
first. -/
def CTable.urisDescsSorted (tab : CTable) (c uri : String) : List PropSpec :=
  let ds := (tab.dirProps c).filter (fun p => p.uri = uri)
  ds.filter (fun p => p.kind ≠ .sing) ++ ds.filter (fun p => p.kind = .sing)

end Fedikit

namespace Fedikit

/-- A keyword-argument value for entity construction: a single Python value
for a singular/id property, a list for a plural one. -/
inductive KwArg : Type where
  | one (i : Item)
  | many (xs : List Item)

/-- `Property.normalize` of the three descriptor kinds
(descriptors.py lines 72-74, 136-137, 223-224):
- id: `assert isinstance(value, str); return Uri(value)` — accepts a plain
  string (or a `LanguageString`, which is a `str` instance; `Uri` is a
  `NewType`, so the stored value is the string), anything else fails the
  assertion;
- singular: wraps the value in a one-element list, whatever it is (a list
  argument is stored as a single list-valued item);
- plural: `[v for v in value]` — copies a list argument; iterating a
  non-iterable argument raises `TypeError` (a string argument, which would
  iterate into characters, does not occur in the embedded flows and is also
  mapped to the error). -/
def PropSpec.normalize (d : PropSpec) (a : KwArg) : Except PyErr Slot :=
  match d.kind, a with
  | .idp, .one (.str u) => .ok (.idv u)
  | .idp, .one (.langStr s _) => .ok (.idv s)
  | .idp, _ => .error .assertionError
  | .sing, .one i => .ok (.seq [i])
  | .sing, .many xs => .ok (.seq [.pylist xs])
  | .plur, .many xs => .ok (.seq xs)
  | .plur, .one _ => .error (.typeError "object is not iterable")

/-- The keyword loop of `Entity.__init__` (entity.py lines 107-130):
each keyword is looked up as a descriptor on the class (`AttributeError` when
there is none), a second keyword targeting an already-set property URI is an
`AttributeError`, and the normalized slot is stored under the property URI in
keyword order. -/
def entityInitGo (tab : CTable) (cls : String)
    (kwargs : List (String × KwArg)) (values : List (String × Slot)) :
    Except PyErr (List (String × Slot)) :=
  match kwargs with
  | [] => .ok values
  | (key, a) :: rest =>
      match tab.descriptor cls key with
      | Option.none =>
          .error (.attributeError (cls ++ " has no property named " ++ key))
      | some d =>
          if alist.hasKey values d.uri then
            .error (.attributeError (key ++ " cannot be set twice"))
          else do
            let slot ← d.normalize a
            entityInitGo tab cls rest (values ++ [(d.uri, slot)])

/-- `Entity.__init__` (entity.py lines 107-130): build the `_values` mapping
from the keyword arguments and store `__extra__`. -/
def entityInit (tab : CTable) (cls : String)
    (kwargs : List (String × KwArg)) (extra : List (String × Json)) :
    Except PyErr Ent := do
  let values ← entityInitGo tab cls kwargs []
  .ok (.mk cls values extra)

/-- The item scan shared by the two `__get__` implementations: the values of
`instance._values[uri]`, indexed directly — a URI that was never stored
raises `KeyError` (descriptors.py lines 129-133 and 217-220). -/
def slotLookup (values : List (String × Slot)) (uri : String) :
    Except PyErr (List Item) :=
  match alist.get values uri with
  | Option.none => .error (.keyError uri)
  | some (.seq xs) => .ok xs
  | some (.idv _) =>
      .error (.typeError "iterating an id slot")

/-- `PluralProperty.__get__` (descriptors.py lines 121-134): iterate
`(uri, *subproperties)` in order, collecting the items of each slot that are
not `EntityRef`s. -/
def pluralGet (values : List (String × Slot)) (uri : String)
    (subs : List String) : Except PyErr (List Item) :=
  (uri :: subs).foldlM
    (fun acc u => do
      let xs ← slotLookup values u
      .ok (acc ++ xs.filter (fun i => !(match i with | .ref _ => true | _ => false))))
    []

/-- `SingularProperty.__get__` (descriptors.py lines 212-221): iterate
`(uri, *subproperties)` in order and return the first item that is not an
`EntityRef`, or `None`. -/
def singularGet (values : List (String × Slot)) (uri : String)
    (subs : List String) : Except PyErr (Option Item) :=
  (uri :: subs).foldlM
    (fun acc u =>
      match acc with
      | some _ => .ok acc
      | Option.none => do
          let xs ← slotLookup values u
          .ok (xs.find? (fun i => !(match i with | .ref _ => true | _ => false))))
    Option.none

/-- Read a named property of an entity, dispatching on the descriptor's kind
(attribute access via the descriptors' `__get__`). -/
def readProp (tab : CTable) (e : Ent) (name : String) :
    Except PyErr (Option Item ⊕ List Item) :=
  match tab.descriptor e.cls name with
  | Option.none => .error (.attributeError ("no property named " ++ name))
  | some d =>
      match d.kind with
      | .idp =>
          match alist.get e.values "@id" with
          | some (.idv u) => .ok (.inl (some (.str u)))
          | some (.seq _) => .ok (.inl Option.none)
          | Option.none => .error (.keyError "@id")
      | .sing => (singularGet e.values d.uri d.subs).map Sum.inl
      | .plur => (pluralGet e.values d.uri d.subs).map Sum.inr

end Fedikit

namespace Fedikit

/-- `document[k]` on a JSON value: dict lookup (`KeyError` when absent),
`TypeError` on non-dicts. -/
def jsonIndex (v : Json) (k : String) : Except PyErr Json :=
  match v with
  | .obj kvs =>
      match alist.get kvs k with
      | some x => .ok x
      | Option.none => .error (.keyError k)
  | _ => .error (.typeError "value is not subscriptable")

/-- The `len(v) == 1 and "@id" in v` test of the two `parse_jsonld`
implementations (descriptors.py lines 192-195 and 272-276): a JSON object
whose only entry is `@id`.  In an expanded document the `@id` value is a
string; `pyStrJ` covers the (unreachable) other scalars. -/
def isIdOnly : Json → Option String
  | .obj [("@id", j)] => some (pyStrJ j)
  | _ => Option.none

/-- `u in doc["@type"]` where the expanded `@type` value is a list of
strings. -/
def containsStr (types : List Json) (u : String) : Bool :=
  types.any (fun j => match j with | .str s => s = u | _ => false)

/-- The dispatch loop of `Entity.__from_jsonld__` (entity.py lines 70-75):
the first `@type` value with a registered class that is a subclass of the
target; a registered class that is not a subclass, an unregistered type and
a non-string entry all continue the loop. -/
def findDispatch (tab : CTable) (cls : String) : List Json → Option String
  | [] => Option.none
  | .str s :: rest =>
      (match alist.get tab.registry s with
       | some c =>
           if tab.subClass c cls then some c else findDispatch tab cls rest
       | Option.none => findDispatch tab cls rest)
  | _ :: rest => findDispatch tab cls rest

mutual

/-- `converters.from_jsonld(cls, document)` (converters.py lines 58-92) at a
resolved candidate type:
- an entity class delegates to `Entity.__from_jsonld__`, which re-expands
  the nested document through the external algorithm and then parses it;
- `str`/`bool`/`int` wrap `document["@value"]` (`KeyError` when the node has
  no `@value`, which is *not* a `ValueError` and therefore escapes the
  candidate loops); `bool` applies truthiness, `int` parses strings;
- `datetime.fromisoformat`, `parse_duration` and `Language.get` require a
  string argument; the strings the embedded flows feed them are exactly the
  canonical forms the scalars are modelled by, so they are accepted as-is;
- `LanguageString.__from_jsonld__` reads `@value` and `@language`;
- `EntityRef` and `NoneType` match none of the branches and raise the final
  `ValueError`.
All parser functions carry a recursion budget modelling the Python
interpreter's adjustable recursion limit: each call consumes one unit, and
an exhausted budget is Python's `RecursionError`. -/
def decodeVal (tab : CTable) : Nat → RType → Json → Except PyErr Item
  | 0, _, _ => .error .recursionError
  | fuel + 1, t, v =>
      match t with
      | .clsT c => do
          let v2 ← expandJson v
          (parseDoc tab fuel c v2).map Item.ent
      | .strT => do
          let x ← jsonIndex v "@value"
          .ok (.str (pyStrJ x))
      | .boolT => do
          let x ← jsonIndex v "@value"
          .ok (.boolv (pyTruthy x))
      | .intT => do
          let x ← jsonIndex v "@value"
          let n ← pyIntJ x
          .ok (.intv n)
      | .datetimeT => do
          let x ← jsonIndex v "@value"
          match x with
          | .str s => .ok (.dt s)
          | _ => .error (.typeError "fromisoformat: argument must be str")
      | .durationT => do
          let x ← jsonIndex v "@value"
          match x with
          | .str s => .ok (.duration s)
          | _ => .error (.typeError "expected an ISO duration string")
      | .languageT => do
          let x ← jsonIndex v "@value"
          match x with
          | .str s => .ok (.lang s)
          | _ => .error (.typeError "expected a language tag string")
      | .langStrT => do
          let x ← jsonIndex v "@value"
          let l ← jsonIndex v "@language"
          match l with
          | .str tag => .ok (.langStr (pyStrJ x) tag)
          | _ => .error (.typeError "expected a language tag string")
      | .entityRefT =>
          .error (.valueError "cannot convert JSON-LD to EntityRef")
      | .noneT => .error (.valueError "cannot convert JSON-LD to NoneType")
      | .badT => .error (.valueError "cannot convert JSON-LD")

/-- The candidate-type loop shared by the two `parse_jsonld`
implementations: try each resolved type in declaration order; a `ValueError`
moves to the next candidate, success stops, any other exception escapes.
Returns `none` when every candidate failed with `ValueError`. -/
def tryTypes (tab : CTable) : Nat → List RType → Json →
    Except PyErr (Option Item)
  | 0, _, _ => .error .recursionError
  | _ + 1, [], _ => .ok Option.none
  | fuel + 1, t :: rest, v =>
      match decodeVal tab fuel t v with
      | .ok i => .ok (some i)
      | .error (.valueError _) => tryTypes tab fuel rest v
      | .error e => .error e

/-- The value loop of `SingularProperty.parse_jsonld`
(descriptors.py lines 272-284): for each entry of the expanded value list,
an `{"@id": ...}`-only object becomes an `EntityRef`, otherwise the first
successful candidate type wins; when no entry converts, `ValueError`. -/
def singularParse (tab : CTable) : Nat → List RType → List Json →
    Except PyErr Item
  | 0, _, _ => .error .recursionError
  | _ + 1, _, [] => .error (.valueError "cannot convert value")
  | fuel + 1, tys, v :: rest =>
      match isIdOnly v with
      | some u => .ok (.ref u)
      | Option.none => do
          match ← tryTypes tab fuel tys v with
          | some i => .ok i
          | Option.none => singularParse tab fuel tys rest

/-- The value loop of `PluralProperty.parse_jsonld`
(descriptors.py lines 190-208): `{"@id": ...}`-only objects become
`EntityRef`s, each other entry contributes its first successful conversion,
and an entry that converts under no candidate is silently skipped. -/
def pluralParse (tab : CTable) : Nat → List RType → List Json →
    Except PyErr (List Item)
  | 0, _, _ => .error .recursionError
  | _ + 1, _, [] => .ok []
  | fuel + 1, tys, v :: rest =>
      match isIdOnly v with
      | some u => do
          let is ← pluralParse tab fuel tys rest
          .ok (.ref u :: is)
      | Option.none => do
          match ← tryTypes tab fuel tys v with
          | some i => do
              let is ← pluralParse tab fuel tys rest
              .ok (i :: is)
          | Option.none => pluralParse tab fuel tys rest

/-- `Property.parse_jsonld` dispatched on the descriptor kind
(descriptors.py lines 79-90, 142-208, 232-284).  `IdProperty` demands the
hint `Uri` and casts the raw value; the singular and plural descriptors
flatten their hint and run their value loops over the expanded value list
(which the JSON-LD expansion guarantees to be a list). -/
def parsePropJsonld (tab : CTable) : Nat → PropSpec → Json →
    Except PyErr KwArg
  | 0, _, _ => .error .recursionError
  | fuel + 1, d, v =>
      match d.kind with
      | .idp =>
          match d.hint with
          | .uriT =>
              match v with
              | .str u => .ok (.one (.str u))
              | _ => .error (.typeError "expected a string @id")
          | _ => .error (.typeError "expected Uri")
      | .sing => do
          let tys ← resolveSingular d.hint
          match v with
          | .arr xs => do
              let i ← singularParse tab fuel tys xs
              .ok (.one i)
          | _ => .error (.typeError "expanded property value is not a list")
      | .plur => do
          let tys ← resolvePlural d.hint
          match v with
          | .arr xs => do
              let is ← pluralParse tab fuel tys xs
              .ok (.many is)
          | _ => .error (.typeError "expanded property value is not a list")

/-- The descriptor loop of `Entity.__from_jsonld__` (entity.py lines 88-100):
try the descriptors declared at the property URI, plural before singular;
a `TypeError` tries the next one, success stops, other exceptions escape;
`none` when every descriptor was exhausted. -/
def tryDescs (tab : CTable) : Nat → List PropSpec → Json →
    Except PyErr (Option (String × KwArg))
  | 0, _, _ => .error .recursionError
  | _ + 1, [], _ => .ok Option.none
  | fuel + 1, d :: rest, v =>
      match parsePropJsonld tab fuel d v with
      | .ok kw => .ok (some (d.name, kw))
      | .error (.typeError _) => tryDescs tab fuel rest v
      | .error e => .error e

/-- The property loop of `Entity.__from_jsonld__` (entity.py lines 87-103):
for each entry of the expanded document, the first accepting descriptor
contributes a keyword argument; entries no descriptor accepts (other than
`@type`) are stashed in `__extra__`, in document order. -/
def parsePropsGo (tab : CTable) (cls : String) :
    Nat → List (String × Json) → List (String × KwArg) →
    List (String × Json) →
    Except PyErr (List (String × KwArg) × List (String × Json))
  | 0, _, _, _ => .error .recursionError
  | _ + 1, [], vals, extra => .ok (vals, extra)
  | fuel + 1, (uri, v) :: rest, vals, extra => do
      match ← tryDescs tab fuel (tab.urisDescsSorted cls uri) v with
      | some (name, kw) =>
          parsePropsGo tab cls fuel rest (vals ++ [(name, kw)]) extra
      | Option.none =>
          if uri = "@type" then parsePropsGo tab cls fuel rest vals extra
          else parsePropsGo tab cls fuel rest vals (extra ++ [(uri, v)])

/-- The property phase of `Entity.__from_jsonld__` (entity.py lines 81-105):
collect keyword arguments and extras from the document entries, then invoke
the constructor. -/
def parseProps (tab : CTable) (cls : String) :
    Nat → List (String × Json) → Except PyErr Ent
  | 0, _ => .error .recursionError
  | fuel + 1, entries => do
      let (vals, extra) ← parsePropsGo tab cls fuel entries [] []
      entityInit tab cls vals extra

/-- The body of `Entity.__from_jsonld__` on an already-expanded document
(entity.py lines 68-105).  If the document has an `@type` and the target is
the abstract root or the target's `__uri__` is not among the types, the
dispatch loop picks the first `@type` value whose registered class is a
subclass of the target and re-enters `__from_jsonld__` on that class; since
re-expansion leaves the document unchanged and the selected class's URI is
among the types, that recursive call runs the property phase directly, which
is how the model unfolds it.  When no type matches, the `ValueError`
(`unsupported type` / `expected type`) of §7's `UnknownType` is raised. -/
def parseDoc (tab : CTable) : Nat → String → Json → Except PyErr Ent
  | 0, _, _ => .error .recursionError
  | fuel + 1, cls, doc =>
      match doc with
      | .obj kvs =>
          (match alist.get kvs "@type" with
           | some (.arr types) =>
               if cls = "Entity" then
                 match findDispatch tab cls types with
                 | some c => parseProps tab c fuel kvs
                 | Option.none => .error (.valueError "unsupported type")
               else
                 (match tab.uriOf cls with
                  | some u =>
                      if containsStr types u then parseProps tab cls fuel kvs
                      else
                        match findDispatch tab cls types with
                        | some c => parseProps tab c fuel kvs
                        | Option.none =>
                            .error (.valueError ("expected type " ++ u))
                  | Option.none =>
                      .error (.attributeError "type object has no __uri__"))
           | some _ =>
               .error (.jsonLdError "non-list @type in expanded document")
           | Option.none => parseProps tab cls fuel kvs)
      | _ => .error (.jsonLdError "expanded document is not a node object")

end

/-- `Entity.__from_jsonld__` (entity.py lines 55-105): expand the document
through the external JSON-LD algorithm, then parse the first node, under the
given recursion budget. -/
def fromJsonld (tab : CTable) (fuel : Nat) (cls : String) (doc : Json) :
    Except PyErr Ent := do
  let doc2 ← expandJson doc
  parseDoc tab fuel cls doc2

end Fedikit

namespace Fedikit

/-- The ActivityStreams namespace prefix of the vocabulary URIs. -/
def asU (s : String) : String := "https://www.w3.org/ns/activitystreams#" ++ s

/-- `Optional[T1 | ... | Tn]`: a union with `NoneType` appended (how the
typing module flattens `Optional` over a union). -/
def optU (ts : List PyType) : PyType := .unionT (ts ++ [.noneT])

/-- `Sequence[T1 | ... | Tn]`. -/
def seqU (ts : List PyType) : PyType := .seqT (.unionT ts)

/-- A singular property without subproperties. -/
def sp (n u : String) (h : PyType) : PropSpec :=
  { name := n, kind := .sing, uri := u, subs := [], hint := h }

/-- A plural property without subproperties. -/
def pp (n u : String) (h : PyType) : PropSpec :=
  { name := n, kind := .plur, uri := u, subs := [], hint := h }

/-- Child classes replace the parent's descriptor of the same name
(Python attribute lookup) and add their own. -/
def overrideProps (base upd : List PropSpec) : List PropSpec :=
  base.map (fun p =>
    match upd.find? (fun q => q.name = p.name) with
    | some q => q
    | Option.none => p) ++
  upd.filter (fun q => !(base.any (fun p => p.name = q.name)))

/-- The properties of `Object` (`fedikit/vocab/object.py`), in declaration
order, with the hints as annotated (forward references resolved). -/
def objectProps : List PropSpec :=
  [ { name := "id", kind := .idp, uri := "@id", subs := [], hint := .uriT },
    sp "attachment" (asU "attachment")
      (optU [.entityRefT, .clsT "Object", .clsT "Link"]),
    pp "attachments" (asU "attachment")
      (seqU [.entityRefT, .clsT "Object", .clsT "Link"]),
    sp "attributed_to" (asU "attributedTo")
      (optU [.entityRefT, .clsT "Object", .clsT "Link"]),
    pp "attributed_tos" (asU "attributedTo")
      (seqU [.entityRefT, .clsT "Object", .clsT "Link"]),
    sp "audience" (asU "audience")
      (optU [.entityRefT, .clsT "Object", .clsT "Link"]),
    pp "audiences" (asU "audience")
      (seqU [.entityRefT, .clsT "Object", .clsT "Link"]),
    sp "content" (asU "content") (optU [.strT, .langStrT]),
    pp "contents" (asU "content") (seqU [.strT, .langStrT]),
    sp "context" (asU "context")
      (optU [.entityRefT, .clsT "Object", .clsT "Link"]),
    pp "contexts" (asU "context")
      (seqU [.entityRefT, .clsT "Object", .clsT "Link"]),
    sp "name" (asU "name") (optU [.strT, .langStrT]),
    pp "names" (asU "name") (seqU [.strT, .langStrT]),
    sp "end_time" (asU "endTime") (optU [.datetimeT]),
    sp "generator" (asU "generator")
      (optU [.entityRefT, .clsT "Object", .clsT "Link"]),
    pp "generators" (asU "generator")
      (seqU [.entityRefT, .clsT "Object", .clsT "Link"]),
    sp "icon" (asU "icon") (optU [.clsT "Image", .clsT "Link"]),
    pp "icons" (asU "icon") (seqU [.clsT "Image", .clsT "Link"]),
    sp "image" (asU "image") (optU [.clsT "Image", .clsT "Link"]),
    pp "images" (asU "image") (seqU [.clsT "Image", .clsT "Link"]),
    sp "in_reply_to" (asU "inReplyTo")
      (optU [.entityRefT, .clsT "Object", .clsT "Link"]),
    pp "in_reply_tos" (asU "inReplyTo")
      (seqU [.entityRefT, .clsT "Object", .clsT "Link"]),
    sp "location" (asU "location")
      (optU [.entityRefT, .clsT "Object", .clsT "Link"]),
    pp "locations" (asU "location")
      (seqU [.entityRefT, .clsT "Object", .clsT "Link"]),
    sp "preview" (asU "preview")
      (optU [.entityRefT, .clsT "Link", .clsT "Object"]),
    pp "previews" (asU "preview")
      (seqU [.entityRefT, .clsT "Link", .clsT "Object"]),
    sp "published" (asU "published") (optU [.datetimeT]),
    sp "replies" (asU "replies") (optU [.entityRefT, .clsT "Collection"]),
    sp "start_time" (asU "startTime") (optU [.datetimeT]),
    sp "summary" (asU "summary") (optU [.strT, .langStrT]),
    pp "summaries" (asU "summary") (seqU [.strT, .langStrT]),
    sp "tag" (asU "tag") (optU [.entityRefT, .clsT "Link", .clsT "Object"]),
    pp "tags" (asU "tag") (seqU [.entityRefT, .clsT "Link", .clsT "Object"]),
    sp "updated" (asU "updated") (optU [.datetimeT]),
    sp "url" (asU "url") (optU [.uriT, .clsT "Link"]),
    pp "urls" (asU "url") (seqU [.uriT, .clsT "Link"]),
    sp "to" (asU "to") (optU [.entityRefT, .clsT "Link", .clsT "Object"]),
    pp "tos" (asU "to") (seqU [.entityRefT, .clsT "Link", .clsT "Object"]),
    sp "bto" (asU "bto") (optU [.entityRefT, .clsT "Link", .clsT "Object"]),
    pp "btos" (asU "bto") (seqU [.entityRefT, .clsT "Link", .clsT "Object"]),
    sp "cc" (asU "cc") (optU [.entityRefT, .clsT "Link", .clsT "Object"]),
    pp "ccs" (asU "cc") (seqU [.entityRefT, .clsT "Link", .clsT "Object"]),
    sp "bcc" (asU "bcc") (optU [.entityRefT, .clsT "Link", .clsT "Object"]),
    pp "bccs" (asU "bcc") (seqU [.entityRefT, .clsT "Link", .clsT "Object"]),
    sp "media_type" (asU "mediaType") (optU [.strT]),
    sp "duration" (asU "duration") (optU [.durationT]),
    sp "source" (asU "source") (optU [.entityRefT, .clsT "Object"]),
    pp "sources" (asU "source") (seqU [.entityRefT, .clsT "Object"]),
    sp "likes" (asU "likes") (optU [.entityRefT, .clsT "Collection"]),
    sp "shares" (asU "shares") (optU [.entityRefT, .clsT "Collection"]),
    sp "sensitive" (asU "sensitive") (optU [.boolT]) ]

/-- The properties of `Link` (`fedikit/vocab/link.py`). -/
def linkProps : List PropSpec :=
  [ { name := "id", kind := .idp, uri := "@id", subs := [], hint := .uriT },
    sp "href" (asU "href") (optU [.uriT]),
    sp "rel" (asU "rel") (optU [.strT]),
    pp "rels" (asU "rel") (.seqT .strT),
    sp "media_type" (asU "mediaType") (optU [.strT]),
    sp "name" (asU "name") (optU [.strT, .langStrT]),
    pp "names" (asU "name") (seqU [.strT, .langStrT]),
    sp "hreflang" (asU "hreflang") (optU [.languageT]),
    sp "height" (asU "height") (optU [.intT]),
    sp "width" (asU "width") (optU [.intT]),
    sp "preview" (asU "preview") (optU [.clsT "Link", .clsT "Object"]),
    pp "previews" (asU "preview") (seqU [.clsT "Link", .clsT "Object"]) ]

/-- The properties of `Activity` (`fedikit/vocab/activity.py`): `Object`'s,
with `attributed_to`/`attributed_tos` overridden to carry the `actor`
subproperty, plus the activity properties. -/
def activityProps : List PropSpec :=
  overrideProps objectProps
    [ sp "actor" (asU "actor")
        (optU [.entityRefT, .clsT "Object", .clsT "Link"]),
      pp "actors" (asU "actor")
        (seqU [.entityRefT, .clsT "Object", .clsT "Link"]),
      { name := "attributed_to", kind := .sing, uri := asU "attributedTo",
        subs := [asU "actor"],
        hint := optU [.entityRefT, .clsT "Object", .clsT "Link"] },
      { name := "attributed_tos", kind := .plur, uri := asU "attributedTo",
        subs := [asU "actor"],
        hint := seqU [.entityRefT, .clsT "Object", .clsT "Link"] },
      sp "object" (asU "object")
        (optU [.entityRefT, .clsT "Object", .clsT "Link"]),
      pp "objects" (asU "object")
        (seqU [.entityRefT, .clsT "Object", .clsT "Link"]),
      sp "target" (asU "target")
        (optU [.entityRefT, .clsT "Object", .clsT "Link"]),
      pp "targets" (asU "target")
        (seqU [.entityRefT, .clsT "Object", .clsT "Link"]),
      sp "result" (asU "result")
        (optU [.entityRefT, .clsT "Object", .clsT "Link"]),
      pp "results" (asU "result")
        (seqU [.entityRefT, .clsT "Object", .clsT "Link"]),
      sp "origin" (asU "origin")
        (optU [.entityRefT, .clsT "Object", .clsT "Link"]),
      pp "origins" (asU "origin")
        (seqU [.entityRefT, .clsT "Object", .clsT "Link"]),
      sp "instrument" (asU "instrument")
        (optU [.entityRefT, .clsT "Object", .clsT "Link"]),
      pp "instruments" (asU "instrument")
        (seqU [.entityRefT, .clsT "Object", .clsT "Link"]) ]

/-- The properties of `Collection` (`fedikit/vocab/collection.py`). -/
def collectionProps : List PropSpec :=
  overrideProps objectProps
    [ sp "total_items" (asU "totalItems") (optU [.intT]),
      sp "current" (asU "current")
        (optU [.clsT "CollectionPage", .clsT "Link"]),
      sp "first" (asU "first") (optU [.clsT "CollectionPage", .clsT "Link"]),
      sp "last" (asU "last") (optU [.clsT "CollectionPage", .clsT "Link"]),
      pp "items" (asU "items") (seqU [.clsT "Object", .clsT "Link"]) ]

/-- The properties of `CollectionPage` (`fedikit/vocab/collection.py`). -/
def collectionPageProps : List PropSpec :=
  overrideProps collectionProps
    [ sp "part_of" (asU "partOf") (optU [.clsT "Link", .clsT "Collection"]),
      sp "next" (asU "next") (optU [.clsT "CollectionPage", .clsT "Link"]),
      sp "prev" (asU "prev") (optU [.clsT "CollectionPage", .clsT "Link"]) ]

/-- The embedded vocabulary fragment: the classes of `object.py` (without
the `Place`/`Profile`/`Relationship`/`Tombstone`/`Hashtag` leaves, whose
extra properties no claim touches), `link.py`, `activity.py` (with `Create`
as the representative concrete activity), `collection.py` and
`document.py`. -/
def vocab : CTable :=
  { classes :=
      [ { name := "Object", uri := asU "Object", props := objectProps,
          supers := ["Object", "Entity"] },
        { name := "Article", uri := asU "Article", props := objectProps,
          supers := ["Article", "Object", "Entity"] },
        { name := "Note", uri := asU "Note", props := objectProps,
          supers := ["Note", "Object", "Entity"] },
        { name := "Document", uri := asU "Document", props := objectProps,
          supers := ["Document", "Object", "Entity"] },
        { name := "Audio", uri := asU "Audio", props := objectProps,
          supers := ["Audio", "Document", "Object", "Entity"] },
        { name := "Image", uri := asU "Image", props := objectProps,
          supers := ["Image", "Document", "Object", "Entity"] },
        { name := "Page", uri := asU "Page", props := objectProps,
          supers := ["Page", "Document", "Object", "Entity"] },
        { name := "Video", uri := asU "Video", props := objectProps,
          supers := ["Video", "Document", "Object", "Entity"] },
        { name := "Link", uri := asU "Link", props := linkProps,
          supers := ["Link", "Entity"] },
        { name := "Mention", uri := asU "Mention", props := linkProps,
          supers := ["Mention", "Link", "Entity"] },
        { name := "Activity", uri := asU "Activity", props := activityProps,
          supers := ["Activity", "Object", "Entity"] },
        { name := "Create", uri := asU "Create", props := activityProps,
          supers := ["Create", "Activity", "Object", "Entity"] },
        { name := "Collection", uri := asU "Collection",
          props := collectionProps,
          supers := ["Collection", "Object", "Entity"] },
        { name := "OrderedCollection", uri := asU "OrderedCollection",
          props := collectionProps,
          supers := ["OrderedCollection", "Collection", "Object",
                     "Entity"] },
        { name := "CollectionPage", uri := asU "CollectionPage",
          props := collectionPageProps,
          supers := ["CollectionPage", "Collection", "Object", "Entity"] },
        { name := "OrderedCollectionPage", uri := asU "OrderedCollectionPage",
          props := collectionPageProps,
          supers := ["OrderedCollectionPage", "OrderedCollection",
                     "CollectionPage", "Collection", "Object", "Entity"] } ],
    registry :=
      [ (asU "Object", "Object"),
        (asU "Article", "Article"),
        (asU "Note", "Note"),
        (asU "Document", "Document"),
        (asU "Audio", "Audio"),
        (asU "Image", "Image"),
        (asU "Page", "Page"),
        (asU "Video", "Video"),
        (asU "Link", "Link"),
        (asU "Mention", "Mention"),
        (asU "Activity", "Activity"),
        (asU "Create", "Create"),
        (asU "Collection", "Collection"),
        (asU "OrderedCollection", "OrderedCollection"),
        (asU "CollectionPage", "CollectionPage"),
        (asU "OrderedCollectionPage", "OrderedCollectionPage") ] }

end Fedikit

namespace Fedikit

/-- One parsed entry of the request's `Accept` header
(werkzeug's `MIMEAccept`, the external HTTP abstraction): a type/subtype
pair. -/
structure Mime : Type where
  typ : String
  sub : String

/-- werkzeug `MIMEAccept` matching of one header entry against a concrete
media type: `*/*` matches anything, a `type/*` entry matches its type,
otherwise exact match. -/
def mimeMatches (entry : Mime) (t s : String) : Bool :=
  (entry.typ = "*" && entry.sub = "*") ||
    (entry.typ = t && (entry.sub = "*" || entry.sub = s))

/-- `value in request.accept_mimetypes` (werkzeug `Accept.__contains__`):
some header entry matches the value (quality values are not consulted by
`__contains__`). -/
def mimeContains (accept : List Mime) (t s : String) : Bool :=
  accept.any (fun e => mimeMatches e t s)

/-- The content negotiation test of `ServerAsgi.__call__` (server.py lines
495-500): acceptable iff the parsed accept header is empty or contains any of
`application/ld+json`, `application/activity+json`, `application/json`. -/
def acceptable (accept : List Mime) : Bool :=
  decide (accept.length < 1) ||
    mimeContains accept "application" "ld+json" ||
    mimeContains accept "application" "activity+json" ||
    mimeContains accept "application" "json"

/-- The hexadecimal digit characters used by percent-encoding. -/
def hexDigits : List Char := "0123456789ABCDEF".data

/-- Percent-encode one UTF-8 byte unless it is unreserved or the default
safe character `/` (`urllib.parse.quote`). -/
def quoteByte (b : UInt8) : String :=
  let n := b.toNat
  if (48 ≤ n ∧ n ≤ 57) ∨ (65 ≤ n ∧ n ≤ 90) ∨ (97 ≤ n ∧ n ≤ 122) ∨
      n = 45 ∨ n = 46 ∨ n = 95 ∨ n = 126 ∨ n = 47 then
    String.singleton (Char.ofNat n)
  else
    "%" ++ String.singleton (hexDigits.getD (n / 16) '0') ++
      String.singleton (hexDigits.getD (n % 16) '0')

/-- `urllib.parse.quote(s)` with the default `safe="/"` (server.py line 16
and the cursor link construction). -/
def pyQuote (s : String) : String :=
  s.data.foldl (fun acc c =>
    acc ++ (String.utf8EncodeChar c).foldl (fun a b => a ++ quoteByte b) "") ""

/-- The endpoints of the route map (server.py: the pre-registered
`webfinger` rule plus the `actor`/`outbox` rules the registration decorators
add). -/
inductive Endpoint : Type where
  | webfinger
  | actor
  | outbox
  deriving Repr, DecidableEq

/-- The outcome of `adapter.match()` (the werkzeug route map, an external
collaborator per §4.6): a matched endpoint with its captured `handle`
argument, or the `NotFound` / `MethodNotAllowed` distinction. -/
inductive MatchRes : Type where
  | ok (ep : Endpoint) (handle : String)
  | notFound
  | methodNotAllowed
  deriving Repr, DecidableEq

/-- A decoded HTTP request as `ServerAsgi.__call__` sees it after the decode
step, together with the outcomes of the external collaborators bound to the
request: the parsed accept header, the request host, the `resource` and
`cursor` query parameters, the route-map match, and the URL builders
`Context.actor_uri` / `Context.outbox_uri` (werkzeug `MapAdapter.build`). -/
structure Req : Type where
  accept : List Mime
  host : String
  queryResource : Option String
  queryCursor : Option String
  matchOutcome : MatchRes
  actorUriFn : String → String
  outboxUriFn : String → String

/-- `Page` of `fedikit/federation/collection.py`: a named triple of previous
cursor, next cursor and items. -/
structure PageT : Type where
  prevCursor : Option String
  nextCursor : Option String
  items : List Item

/-- The registration state of `Server` (server.py lines 198-216): the five
optional handles.  Dispatchers are modelled as plain functions from the
handle (the request context is closed over). -/
structure ServerS : Type where
  actorDispatcher : Option (String → Option Ent)
  outboxDispatcher : Option (String → Option String → Option PageT)
  outboxCounter : Option (String → Option Int)
  outboxFirstCursor : Option (String → Option String)
  outboxLastCursor : Option (String → Option String)

/-- `Server.dispatch_actor` (server.py lines 295-309): `None` when no actor
dispatcher is registered. -/
def dispatchActor (srv : ServerS) (handle : String) : Option Ent :=
  match srv.actorDispatcher with
  | some f => f handle
  | Option.none => Option.none

/-- `Server.dispatch_outbox` (server.py lines 311-329). -/
def dispatchOutbox (srv : ServerS) (handle : String) (cursor : Option String) :
    Option PageT :=
  match srv.outboxDispatcher with
  | some f => f handle cursor
  | Option.none => Option.none

/-- `Server.count_outbox` (server.py lines 331-346). -/
def countOutbox (srv : ServerS) (handle : String) : Option Int :=
  match srv.outboxCounter with
  | some f => f handle
  | Option.none => Option.none

/-- `Server.get_outbox_first_cursor` (server.py lines 348-363). -/
def getOutboxFirstCursor (srv : ServerS) (handle : String) : Option String :=
  match srv.outboxFirstCursor with
  | some f => f handle
  | Option.none => Option.none

/-- `Server.get_outbox_last_cursor` (server.py lines 365-380). -/
def getOutboxLastCursor (srv : ServerS) (handle : String) : Option String :=
  match srv.outboxLastCursor with
  | some f => f handle
  | Option.none => Option.none

/-- The error hooks of `Server.asgi` (server.py lines 382-412). -/
inductive Hook : Type where
  | nonHttp
  | notFound
  | methodNotAllowed
  | notAcceptable
  deriving Repr, DecidableEq

/-- A response body: plain text, or the JSON value passed to `json.dumps`. -/
inductive Body : Type where
  | text (s : String)
  | jsonBody (j : Json)

/-- The observable outcome of a request: a delegation to one of the hooks, a
directly sent response (status, content type, body), or an uncaught
exception escaping the handler. -/
inductive Response : Type where
  | hook (h : Hook)
  | sent (status : Nat) (contentType : String) (body : Body)
  | crash (e : PyErr)

/-- The `^acct:([^@]+)@<host>$` match of `_webfinger_asgi` (server.py lines
541-547): the resource must be `acct:` followed by a non-empty handle
without `@`, an `@`, and the literal request host. -/
def acctMatch (resource host : String) : Option String :=
  if resource.startsWith "acct:" then
    match (resource.drop 5).splitOn "@" with
    | [] => Option.none
    | [_] => Option.none
    | handle :: hostParts =>
        if handle ≠ "" ∧ String.intercalate "@" hostParts = host then
          some handle
        else Option.none
  else Option.none

/-- A JRD link as `_webfinger_asgi` constructs it
(`fedikit/webfinger/jrd.py` `Link`; the `titles`/`properties` fields are
never set by the server). -/
structure JrdLink : Type where
  rel : String
  type : Option String
  href : Option Item

/-- Python `str(x)` of a slot item (jrd.py `to_json` stringifies `href`).
The hrefs the server passes are strings (URIs) already. -/
def pyStrItem : Item → String
  | .str s => s
  | .langStr s _ => s
  | .intv n => toString n
  | .boolv b => if b then "True" else "False"
  | .dt s => s
  | .duration s => s
  | .lang s => s
  | .ref u => "EntityRef(" ++ u ++ ")"
  | .ent _ => "<entity repr>"
  | .nonev => "None"
  | .pylist _ => "<list repr>"

/-- `Link.to_json` (jrd.py lines 83-99): `rel`, then `type` and `href` when
present. -/
def jrdLinkJson (l : JrdLink) : Json :=
  .obj
    ([("rel", Json.str l.rel)] ++
      (match l.type with
       | some t => [("type", Json.str t)]
       | Option.none => []) ++
      (match l.href with
       | some h => [("href", Json.str (pyStrItem h))]
       | Option.none => []))

/-- `ResourceDescriptor.to_json` (jrd.py lines 28-52) for the descriptor the
server builds: `subject`, `aliases`, `links`. -/
def jrdJson (subject : String) (aliases : List String)
    (links : List JrdLink) : Json :=
  .obj
    [("subject", .str subject),
     ("aliases", .arr (aliases.map Json.str)),
     ("links", .arr (links.map jrdLinkJson))]

/-- Python truthiness of a slot item (`url.rel or "..."` in
`_webfinger_asgi`). -/
def pyTruthyItem : Item → Bool
  | .str s => s ≠ ""
  | .langStr s _ => s ≠ ""
  | .intv n => n ≠ 0
  | .boolv b => b
  | .dt _ => true
  | .duration _ => true
  | .lang _ => true
  | .ref _ => true
  | .ent _ => true
  | .nonev => false
  | .pylist xs => !xs.isEmpty

/-- The default link relation of `_webfinger_asgi`. -/
def profilePageRel : String := "http://webfinger.net/rel/profile-page"

/-- The per-URL loop of `_webfinger_asgi` (server.py lines 558-578): a
vocabulary `Link` url contributes its `rel` (falling back to the
profile-page relation when falsy), `href` and `media_type`; any other url
value is used literally with the default relation and
`application/activity+json`. -/
def webfingerUrlLink (url : Item) : Except PyErr JrdLink :=
  match url with
  | .ent e =>
      if vocab.subClass e.cls "Link" then do
        let rel ← singularGet e.values (asU "rel") []
        let href ← singularGet e.values (asU "href") []
        let mt ← singularGet e.values (asU "mediaType") []
        .ok
          { rel :=
              match rel with
              | some r => if pyTruthyItem r then pyStrItem r else profilePageRel
              | Option.none => profilePageRel,
            type :=
              match mt with
              | some m => some (pyStrItem m)
              | Option.none => Option.none,
            href := href }
      else
        .ok { rel := profilePageRel, type := some "application/activity+json",
              href := some url }
  | _ =>
      .ok { rel := profilePageRel, type := some "application/activity+json",
            href := some url }

/-- `_webfinger_asgi` (server.py lines 518-593): no registered actor
dispatcher means the not-found hook; a missing `resource` parameter is a
direct 400; a resource that is not `acct:handle@host` is the not-found hook;
a dispatcher miss is the not-found hook; otherwise the JRD response is
built from the actor's `urls` property (whose read, like any property read,
fails with `KeyError` when the slot was never stored). -/
def webfingerAsgi (srv : ServerS) (req : Req) : Response :=
  if srv.actorDispatcher.isNone then .hook .notFound
  else
    match req.queryResource with
    | Option.none => .sent 400 "text/plain" (.text "Missing resource parameter")
    | some resource =>
        match acctMatch resource req.host with
        | Option.none => .hook .notFound
        | some handle =>
            match dispatchActor srv handle with
            | Option.none => .hook .notFound
            | some actor =>
                let selfLink : JrdLink :=
                  { rel := "self", type := some "application/activity+json",
                    href := some (.str (req.actorUriFn handle)) }
                match pluralGet actor.values (asU "url") [] with
                | .error e => .crash e
                | .ok urls =>
                    match urls.mapM webfingerUrlLink with
                    | .error e => .crash e
                    | .ok urlLinks =>
                        .sent 200 "application/jrd+json"
                          (.jsonBody (jrdJson resource [req.actorUriFn handle]
                            (selfLink :: urlLinks)))

/-- The ActivityStreams-profiled content type of the actor and collection
responses (server.py lines 612-618 and 695-703). -/
def ldProfileCt : String :=
  "application/ld+json; profile=\"https://www.w3.org/ns/activitystreams\""

/-- Render an entity as compacted JSON-LD and send it
(`await jsonld(...)` followed by the 200 response; the compaction algorithm
is the external JSON-LD collaborator, passed in as `compactFn`).  An
exception escaping construction or serialization crashes the handler. -/
def renderEntity (compactFn : Json → Json) (r : Except PyErr Ent) : Response :=
  match r with
  | .error e => .crash e
  | .ok c =>
      match entJsonldRaw vocab.clsUris c with
      | .error e => .crash e
      | .ok doc => .sent 200 ldProfileCt (.jsonBody (compactFn doc))

/-- `_actor_asgi` (server.py lines 595-624). -/
def actorAsgi (srv : ServerS) (compactFn : Json → Json) (handle : String) :
    Response :=
  match dispatchActor srv handle with
  | Option.none => .hook .notFound
  | some actor => renderEntity compactFn (.ok actor)

/-- `_outbox_asgi` (server.py lines 626-709).  Without a `cursor` query
parameter: obtain the first cursor, last cursor and total; when the first
cursor is absent, dispatch the outbox with `cursor=None` and render an
inline `OrderedCollection` (404 on a dispatcher miss); when the first cursor
is present, render an `OrderedCollection` whose `total_items`, `first` and
`last` keywords are always passed — an absent counter or last cursor passes
`None`.  With a `cursor` parameter: dispatch with it and render an
`OrderedCollectionPage` whose `prev`/`next` keywords are `None` or cursor
links. -/
def outboxAsgi (srv : ServerS) (req : Req) (compactFn : Json → Json)
    (handle : String) : Response :=
  match req.queryCursor with
  | Option.none =>
      let firstCursor := getOutboxFirstCursor srv handle
      let lastCursor := getOutboxLastCursor srv handle
      let totalItems := countOutbox srv handle
      match firstCursor with
      | Option.none =>
          match dispatchOutbox srv handle Option.none with
          | Option.none => .hook .notFound
          | some page =>
              renderEntity compactFn
                (entityInit vocab "OrderedCollection"
                  [("total_items",
                    .one (match totalItems with
                          | some n => .intv n
                          | Option.none => .nonev)),
                   ("ordered_items", .many page.items)] [])
      | some fc =>
          renderEntity compactFn
            (entityInit vocab "OrderedCollection"
              [("total_items",
                .one (match totalItems with
                      | some n => .intv n
                      | Option.none => .nonev)),
               ("first",
                .one (.ref (req.outboxUriFn handle ++ "?cursor=" ++
                  pyQuote fc))),
               ("last",
                .one (match lastCursor with
                      | Option.none => .nonev
                      | some lc =>
                          .ref (req.outboxUriFn handle ++ "?cursor=" ++
                            pyQuote lc)))] [])
  | some cursor =>
      match dispatchOutbox srv handle (some cursor) with
      | Option.none => .hook .notFound
      | some page =>
          renderEntity compactFn
            (entityInit vocab "OrderedCollectionPage"
              [("prev",
                .one (match page.prevCursor with
                      | Option.none => .nonev
                      | some pc =>
                          .ref (req.outboxUriFn handle ++ "?cursor=" ++
                            pyQuote pc))),
               ("next",
                .one (match page.nextCursor with
                      | Option.none => .nonev
                      | some nc =>
                          .ref (req.outboxUriFn handle ++ "?cursor=" ++
                            pyQuote nc))),
               ("ordered_items", .many page.items)] [])

/-- `ServerAsgi.__call__` on an HTTP request (server.py lines 443-516), after
the decode step: route matching first (`adapter.match()`, with the
`NotFound` / `MethodNotAllowed` hooks), then content negotiation (the
not-acceptable hook), then the endpoint pipelines. -/
def serverCall (srv : ServerS) (req : Req) (compactFn : Json → Json) :
    Response :=
  match req.matchOutcome with
  | .notFound => .hook .notFound
  | .methodNotAllowed => .hook .methodNotAllowed
  | .ok ep handle =>
      if !acceptable req.accept then .hook .notAcceptable
      else
        match ep with
        | .webfinger => webfingerAsgi srv req
        | .actor => actorAsgi srv compactFn handle
        | .outbox => outboxAsgi srv req compactFn handle

end Fedikit

namespace Fedikit

/-- A server with no registered handles (the state of `Server()` right after
construction). -/
def emptyServer : ServerS :=
  { actorDispatcher := Option.none, outboxDispatcher := Option.none,
    outboxCounter := Option.none, outboxFirstCursor := Option.none,
    outboxLastCursor := Option.none }

/-- A decoded request against host `fedikit.test` with no query parameters,
an empty accept header, and an unmatched path; the URL builders mirror the
test fixture's routes. -/
def baseReq : Req :=
  { accept := [], host := "fedikit.test", queryResource := Option.none,
    queryCursor := Option.none, matchOutcome := .notFound,
    actorUriFn := fun h => "http://fedikit.test/actors/" ++ h,
    outboxUriFn := fun h => "http://fedikit.test/actors/" ++ h ++ "/outbox" }

/-- The server of the C2 failing input: an outbox dispatcher and counter are
registered, a first-cursor supplier returning `"0"` is registered, and no
last-cursor supplier is registered. -/
def c2Server : ServerS :=
  { actorDispatcher := Option.none,
    outboxDispatcher :=
      some (fun _ _ => some { prevCursor := Option.none,
                              nextCursor := Option.none, items := [] }),
    outboxCounter := some (fun _ => some 3),
    outboxFirstCursor := some (fun _ => some "0"),
    outboxLastCursor := Option.none }

/-- The request of the C2 failing input: `GET /actors/alice/outbox` without
a `cursor` query parameter, routed to the outbox endpoint. -/
def c2Req : Req := { baseReq with matchOutcome := .ok .outbox "alice" }

/-- One `@type` entry that the dispatch loop passes over: not a string, or
unregistered, or registered to a class that is not a subclass of the
target. -/
def noHit (tab : CTable) (cls : String) (j : Json) : Prop :=
  ∀ s, j = Json.str s → ∀ c, alist.get tab.registry s = some c →
    tab.subClass c cls = false

/-- The request of the C3/C4/C5 witnesses: matched to the WebFinger
endpoint. -/
def webfingerReq : Req := { baseReq with matchOutcome := .ok .webfinger "x" }

/-- A request matched to the WebFinger endpoint whose accept header is
`text/html` only. -/
def htmlAcceptReq : Req :=
  { webfingerReq with accept := [Mime.mk "text" "html"] }

/-- A server whose actor dispatcher is registered but knows no actors. -/
def actorlessServer : ServerS :=
  { emptyServer with actorDispatcher := some (fun _ => Option.none) }

def webfingerResourceReq : Req :=
  { webfingerReq with queryResource := some "acct:alice@fedikit.test" }

end Fedikit

namespace Fedikit

mutual

/-- The serialized (already expanded) document of an entity and of each slot
item, as `Entity.__jsonld__(expand=True)` produces them on the well-formed
ref-free fragment (`wfEntB` and `refFreeE` below): the mirror of
`entJsonldExpand` whose equality with it is proved below.  The `.ref` arm is
the *parse-side* shape of a reference (the string-`@id` node an expanded
wire document carries); the serializer itself never produces it, since an
`EntityRef` in the raw document aborts the expansion. -/
def serItem : Item → Json
  | .str s => .obj [("@value", .str s)]
  | .boolv b => .obj [("@value", .bool b)]
  | .intv n =>
      .obj [("@value", .num n),
        ("@type", .str (if n < 0 then xsdInteger else xsdNonNegativeInteger))]
  | .dt iso => .obj [("@type", .str xsdDateTime), ("@value", .str iso)]
  | .duration iso => .obj [("@value", .str iso)]
  | .lang tag => .obj [("@value", .str tag)]
  | .langStr s tag => .obj [("@value", .str s), ("@language", .str tag)]
  | .ref u => .obj [("@id", .str u)]
  | .ent e => serDoc e
  | .nonev => .null
  | .pylist _ => .null
termination_by structural i => i

/-- The serialized value of one slot (see `serItem`). -/
def serSlot : Slot → Json
  | .idv u => .str u
  | .seq xs => .arr (serItems xs)
termination_by structural s => s

/-- The serialized items of a sequence slot (see `serItem`). -/
def serItems : List Item → List Json
  | [] => []
  | x :: rest => serItem x :: serItems rest
termination_by structural xs => xs

/-- The serialized `_values` entries (see `serItem`). -/
def serValues : List (String × Slot) → List (String × Json)
  | [] => []
  | (u, s) :: rest => (u, serSlot s) :: serValues rest
termination_by structural kvs => kvs

/-- The expanded document of an entity (see `serItem`). -/
def serDoc : Ent → Json
  | .mk c values _ =>
      .obj (("@type",
        .arr [.str ((vocab.uriOf c).getD "")]) :: serValues values)
termination_by structural e => e

end

/-- The raw (pre-expansion) document of an entity on the well-formed
ref-free fragment: only the `@type` entry differs from `serDoc` (a bare
string before expansion); with no `EntityRef` items the nested documents
are what `serDoc` gives. -/
def rawDoc : Ent → Json
  | .mk c values _ =>
      .obj (("@type", .str ((vocab.uriOf c).getD "")) :: serValues values)

/-- How one candidate type of a flattened hint treats one slot item, as the
embedded `converters.from_jsonld` computes on the item's serialization:
`yes` — decodes back to exactly the item; `skip` — raises `ValueError`, so
the candidate loop moves on; `bad` — anything else (a wrong decode, or an
exception that escapes the loop). -/
inductive Accept3 : Type where
  | yes
  | skip
  | bad
  deriving Repr, DecidableEq

/-- `int(x)` on the string carried by a serialized scalar: parseable means
the candidate decodes to a *different* item (`bad`), unparseable means
`ValueError` (`skip`). -/
def intAcc (s : String) : Accept3 :=
  match pyIntOfString s with
  | .ok _ => .bad
  | .error _ => .skip

/-- Classify a candidate type against a slot item (see `Accept3`).  For an
entity item under a class candidate, the conditions under which the nested
parse lands back on the item's own class are computed from the table: the
candidate is the class itself, or the registry maps the item's type URI back
to its class, the class is a subclass of the candidate, and the candidate's
URI differs (so the `cls.__uri__ not in doc["@type"]` test dispatches). -/
def acceptT (t : RType) (i : Item) : Accept3 :=
  match t, i with
  | .entityRefT, _ => .skip
  | .noneT, _ => .skip
  | .strT, .str _ => .yes
  | .strT, _ => .bad
  | .boolT, .boolv _ => .yes
  | .boolT, _ => .bad
  | .intT, .intv _ => .yes
  | .intT, .str s => intAcc s
  | .intT, .dt s => intAcc s
  | .intT, .duration s => intAcc s
  | .intT, .lang s => intAcc s
  | .intT, .langStr s _ => intAcc s
  | .intT, _ => .bad
  | .datetimeT, .dt _ => .yes
  | .datetimeT, _ => .bad
  | .durationT, .duration _ => .yes
  | .durationT, _ => .bad
  | .languageT, .lang _ => .yes
  | .languageT, _ => .bad
  | .langStrT, .langStr _ _ => .yes
  | .langStrT, _ => .bad
  | .clsT c2, .ent e =>
      (match vocab.uriOf e.cls, vocab.uriOf c2 with
       | some ue, some uc =>
           if c2 = e.cls then .yes
           else if uc = ue then .bad
           else
             match alist.get vocab.registry ue with
             | some c3 =>
                 if c3 = e.cls then
                   if vocab.subClass e.cls c2 then .yes else .skip
                 else if vocab.subClass c3 c2 then .bad else .skip
             | Option.none => .skip
       | _, _ => .bad)
  | .clsT _, _ => .bad
  | .badT, _ => .bad

/-- The candidate walk of the two `parse_jsonld` value loops on a serialized
item: some candidate decodes it back to itself, and every earlier candidate
raises `ValueError` (see `Accept3`). -/
def conformsB : List RType → Item → Bool
  | [], _ => false
  | t :: rest, i =>
      match acceptT t i with
      | .yes => true
      | .skip => conformsB rest i
      | .bad => false

/-- The descriptor that `Entity.__from_jsonld__`'s per-URI loop settles on
for a list-valued entry: descriptors whose `parse_jsonld` raises `TypeError`
on a list (a plural with a non-`Sequence` hint, a singular whose hint does
not flatten, an id property) are skipped; the first remaining one wins. -/
def firstAcceptingArr : List PropSpec → Option PropSpec
  | [] => Option.none
  | d :: rest =>
      match d.kind with
      | .idp => firstAcceptingArr rest
      | .plur =>
          match d.hint with
          | .seqT _ => some d
          | _ => firstAcceptingArr rest
      | .sing =>
          match resolveSingular d.hint with
          | .ok _ => some d
          | .error _ => firstAcceptingArr rest

/-- The descriptor the per-URI loop settles on for a string-valued entry
(an id slot): plural and singular descriptors raise `TypeError` on a
non-list, an id property accepts when its hint is `Uri`. -/
def firstAcceptingId : List PropSpec → Option PropSpec
  | [] => Option.none
  | d :: rest =>
      match d.kind with
      | .idp =>
          match d.hint with
          | .uriT => some d
          | _ => firstAcceptingId rest
      | _ => firstAcceptingId rest

/-- The keyword argument the descriptor walk contributes for one serialized
slot (`none` when every descriptor skips). -/
def expectedKwDs (ds : List PropSpec) : Slot → Option (String × KwArg)
  | .idv u => (firstAcceptingId ds).map (fun d => (d.name, .one (.str u)))
  | .seq xs =>
      (firstAcceptingArr ds).map (fun d =>
        (d.name,
         match d.kind with
         | .plur => KwArg.many xs
         | _ => KwArg.one (xs.headD .nonev)))

/-- The keyword arguments `Entity.__from_jsonld__` collects from a
serialized `_values` mapping, in document order. -/
def kwargsOf (c : String) (values : List (String × Slot)) :
    List (String × KwArg) :=
  values.filterMap (fun kv =>
    expectedKwDs (vocab.urisDescsSorted c kv.1) kv.2)

/-- The constructor's descriptor lookup restores the slot under the same
property URI with the same cardinality: `getattr(cls, name)` yields a
descriptor at the walk's URI and kind. -/
def descOk (c : String) (uri : String) (d : PropSpec) : Bool :=
  match vocab.descriptor c d.name with
  | some d2 => decide (d2.uri = uri) && decide (d2.kind = d.kind)
  | Option.none => false

/-- The candidate list of the walk's accepting descriptor (empty when there
is none; only meaningful under `wfSlotB`). -/
def slotTys (ds : List PropSpec) (slot : Slot) : List RType :=
  match slot with
  | .idv _ => []
  | .seq _ =>
      match firstAcceptingArr ds with
      | some d =>
          (match d.kind with
           | .plur => resolvePlural d.hint
           | _ => resolveSingular d.hint).toOption.getD []
      | Option.none => []

mutual

/-- The well-formed fragment of the round-trip theorem: the entity's class
is in the table, `__extra__` is empty, no descriptor is declared at `@type`,
and every slot is well-formed for its URI (`wfSlotB`). -/
def wfEntB : Ent → Bool
  | .mk c values extra =>
      (vocab.classSpec c).isSome &&
      extra.isEmpty &&
      (vocab.urisDescsSorted c "@type").isEmpty &&
      wfValuesB c values
termination_by structural e => e

/-- Keys are distinct and every slot is well-formed (see `wfSlotB`). -/
def wfValuesB (c : String) : List (String × Slot) → Bool
  | [] => true
  | (u, s) :: rest =>
      !(alist.hasKey rest u) && wfSlotB c u s && wfValuesB c rest
termination_by structural kvs => kvs

/-- One slot round-trips: an id slot sits at `@id` and an id descriptor
accepts it; a sequence slot is nonempty, sits at no JSON-LD keyword, the
descriptor walk settles on a descriptor restorable by name (`descOk`) whose
cardinality fits the slot, and every item conforms to the resolved
candidates (`wfItemB`). -/
def wfSlotB (c uri : String) : Slot → Bool
  | .idv _ =>
      decide (uri = "@id") &&
      (match firstAcceptingId (vocab.urisDescsSorted c uri) with
       | some d => descOk c uri d && decide (d.kind = PKind.idp)
       | Option.none => false)
  | .seq xs =>
      !xs.isEmpty &&
      decide (uri ≠ "@type") && decide (uri ≠ "@value") &&
      decide (uri ≠ "@language") && decide (uri ≠ "@id") &&
      (match firstAcceptingArr (vocab.urisDescsSorted c uri) with
       | some d =>
           descOk c uri d &&
           (match d.kind with
            | .plur =>
                (match resolvePlural d.hint with
                 | .ok tys => wfItemsB tys xs
                 | .error _ => false)
            | .sing =>
                (match xs with
                 | [x] =>
                     (match resolveSingular d.hint with
                      | .ok tys => wfItemB tys x
                      | .error _ => false)
                 | _ => false)
            | .idp => false)
       | Option.none => false)
termination_by structural s => s

/-- Every item of a sequence slot is well-formed (see `wfItemB`). -/
def wfItemsB (tys : List RType) : List Item → Bool
  | [] => true
  | x :: rest => wfItemB tys x && wfItemsB tys rest
termination_by structural xs => xs

/-- One item round-trips under the candidate list: an `EntityRef` is
restored from its `@id` node before the candidates run; any other item must
conform to the walk (`conformsB`), and a nested entity must itself be
well-formed. -/
def wfItemB (tys : List RType) : Item → Bool
  | .ref _ => true
  | .ent e => conformsB tys (.ent e) && wfEntB e
  | i => conformsB tys i
termination_by structural i => i

end

mutual

/-- No slot item anywhere in the entity is an `EntityRef`.  The raw document
of an entity holding an `EntityRef` carries the reference object under
`"@id"`, and the expansion `Entity.__jsonld__(expand=True)` runs aborts on
that non-string `@id` value, so such an entity cannot be serialized at
all. -/
def refFreeE : Ent → Bool
  | .mk _ values _ => refFreeValues values
termination_by structural e => e

/-- No `EntityRef` in any slot (see `refFreeE`). -/
def refFreeValues : List (String × Slot) → Bool
  | [] => true
  | (_, s) :: rest => refFreeSlot s && refFreeValues rest
termination_by structural kvs => kvs

/-- No `EntityRef` in the slot (see `refFreeE`). -/
def refFreeSlot : Slot → Bool
  | .idv _ => true
  | .seq xs => refFreeItems xs
termination_by structural s => s

/-- No `EntityRef` among the items (see `refFreeE`). -/
def refFreeItems : List Item → Bool
  | [] => true
  | x :: rest => refFreeItem x && refFreeItems rest
termination_by structural xs => xs

/-- The item is no `EntityRef`, and a nested entity is itself free of them
(see `refFreeE`). -/
def refFreeItem : Item → Bool
  | .ref _ => false
  | .ent e => refFreeE e
  | _ => true
termination_by structural i => i

end

mutual

/-- A recursion budget sufficient to parse the serialization of one item
(the nested parse of an entity item dominates). -/
def costIt : Item → Nat
  | .ent e => costE e
  | _ => 0
termination_by structural i => i

/-- A budget sufficient for `pluralParse` on the serialized items: one unit
per entry plus each entry's candidate walk. -/
def costPP (tysLen : Nat) : List Item → Nat
  | [] => 1
  | x :: rest => 1 + max (tysLen + 1 + costIt x) (costPP tysLen rest)
termination_by structural xs => xs

/-- A budget sufficient for the descriptor walk (`tryDescs`) on one
serialized slot. -/
def costSlotT (c uri : String) : Slot → Nat
  | .idv _ => (vocab.urisDescsSorted c uri).length + 2
  | .seq xs =>
      (vocab.urisDescsSorted c uri).length + 4 +
        costPP (slotTys (vocab.urisDescsSorted c uri) (.seq xs)).length xs
termination_by structural s => s

/-- A budget sufficient for the property loop (`parsePropsGo`) on the
serialized `_values` entries. -/
def costGoT (c : String) : List (String × Slot) → Nat
  | [] => 1
  | (u, s) :: rest => 1 + max (costSlotT c u s) (costGoT c rest)
termination_by structural kvs => kvs

/-- A budget sufficient to parse the serialization of a whole entity. -/
def costE : Ent → Nat
  | .mk c values _ => 3 + costGoT c values
termination_by structural e => e

end

/-- Well-formedness of one item ignoring candidate conformance (what the
decode lemmas need: a nested entity is well-formed, anything else is
unconstrained). -/
def wfItemPlain : Item → Bool
  | .ent e => wfEntB e
  | _ => true

/-- The descriptor-walk part of `wfSlotB`, over an explicit descriptor
list (the walk shortens the list, the per-URI instance is
`wfSlotB_to_ds`). -/
def slotDsOk (ds : List PropSpec) : Slot → Bool
  | .idv _ => (firstAcceptingId ds).isSome
  | .seq xs =>
      match firstAcceptingArr ds with
      | some d =>
          (match d.kind with
           | .plur =>
               (match resolvePlural d.hint with
                | .ok tys => wfItemsB tys xs
                | .error _ => false)
           | .sing =>
               (match xs with
                | [x] =>
                    (match resolveSingular d.hint with
                     | .ok tys => wfItemB tys x
                     | .error _ => false)
                | _ => false)
           | .idp => false)
      | Option.none => false

/-- The budget of the descriptor walk over an explicit descriptor list
(see `costSlotT`). -/
def costDs (ds : List PropSpec) : Slot → Nat
  | .idv _ => ds.length + 2
  | .seq xs => ds.length + 4 + costPP (slotTys ds (.seq xs)).length xs

/-- The parse-correctness package, indexed by the recursion budget: each
conjunct states that one function of the fueled parser family, run on the
serialization of a well-formed value with a sufficient budget, reproduces
the value (or, for a skipped candidate, raises the `ValueError` the
candidate loop absorbs). -/
def ParseOK (fuel : Nat) : Prop :=
  (∀ t i, acceptT t i = .yes → wfItemPlain i = true → 1 + costIt i ≤ fuel →
    decodeVal vocab fuel t (serItem i) = .ok i) ∧
  (∀ t i, acceptT t i = .skip → wfItemPlain i = true → 2 ≤ fuel →
    ∃ m, decodeVal vocab fuel t (serItem i) = .error (.valueError m)) ∧
  (∀ tys i, conformsB tys i = true → wfItemPlain i = true →
    tys.length + 1 + costIt i ≤ fuel →
    tryTypes vocab fuel tys (serItem i) = .ok (some i)) ∧
  (∀ tys xs, wfItemsB tys xs = true → costPP tys.length xs ≤ fuel →
    pluralParse vocab fuel tys (serItems xs) = .ok xs) ∧
  (∀ tys x, wfItemB tys x = true → 4 + tys.length + costIt x ≤ fuel →
    singularParse vocab fuel tys [serItem x] = .ok x) ∧
  (∀ ds slot, slotDsOk ds slot = true → costDs ds slot ≤ fuel →
    tryDescs vocab fuel ds (serSlot slot) = .ok (expectedKwDs ds slot)) ∧
  (∀ c vs acc ex, wfValuesB c vs = true → costGoT c vs ≤ fuel →
    parsePropsGo vocab c fuel (serValues vs) acc ex =
      .ok (acc ++ kwargsOf c vs, ex)) ∧
  (∀ e c2, wfEntB e = true → acceptT (.clsT c2) (.ent e) = .yes →
    costE e ≤ fuel → parseDoc vocab fuel c2 (serDoc e) = .ok e)

end Fedikit

namespace Fedikit

theorem findDispatch_skip (tab : CTable) (cls : String) (j : Json)
    (rest : List Json) (h : noHit tab cls j) :
    findDispatch tab cls (j :: rest) = findDispatch tab cls rest := by
  cases j with
  | str s =>
      rw [findDispatch]
      cases hreg : alist.get tab.registry s with
      | none => rfl
      | some c =>
          have := h s rfl c hreg
          simp [this]
  | num n => rfl
  | bool b => rfl
  | null => rfl
  | arr xs => rfl
  | obj kvs => rfl
  | refo u => rfl

theorem findDispatch_append (tab : CTable) (cls : String) (pre rest : List Json)
    (h : ∀ j ∈ pre, noHit tab cls j) :
    findDispatch tab cls (pre ++ rest) = findDispatch tab cls rest := by
  induction pre with
  | nil => rfl
  | cons p pre2 ih =>
      rw [List.cons_append,
        findDispatch_skip tab cls p _ (h p (List.mem_cons_self _ _))]
      exact ih (fun j hj => h j (List.mem_cons_of_mem _ hj))

theorem findDispatch_some_iff (tab : CTable) (cls : String)
    (types : List Json) (c : String) :
    findDispatch tab cls types = some c ↔
      ∃ pre s post, types = pre ++ Json.str s :: post ∧
        alist.get tab.registry s = some c ∧ tab.subClass c cls = true ∧
        ∀ j ∈ pre, noHit tab cls j := by
  constructor
  · intro h
    induction types with
    | nil => rw [findDispatch] at h; cases h
    | cons j rest ih =>
        by_cases hj : noHit tab cls j
        · rw [findDispatch_skip tab cls j rest hj] at h
          obtain ⟨pre, s3, post, hsplit, h1, h2, h3⟩ := ih h
          refine ⟨j :: pre, s3, post, by rw [hsplit, List.cons_append],
            h1, h2, ?_⟩
          intro j2 hj2
          rcases List.mem_cons.mp hj2 with hj2 | hj2
          · subst hj2; exact hj
          · exact h3 j2 hj2
        · have : ∃ s c1, j = Json.str s ∧
              alist.get tab.registry s = some c1 ∧
              tab.subClass c1 cls = true := by
            by_contra hcon
            apply hj
            intro s hs c1 hc1
            cases hb : tab.subClass c1 cls with
            | false => rfl
            | true => exact absurd ⟨s, c1, hs, hc1, hb⟩ hcon
          obtain ⟨s, c1, rfl, hreg, hsub⟩ := this
          rw [findDispatch, hreg] at h
          simp only [hsub, if_true] at h
          cases h
          exact ⟨[], s, rest, rfl, hreg, hsub, by simp⟩
  · rintro ⟨pre, s, post, hsplit, h1, h2, h3⟩
    rw [hsplit, findDispatch_append tab cls pre _ h3, findDispatch, h1]
    simp [h2]

set_option maxRecDepth 1000000

/-- **C1**: the claim says reading `attributed_to` on an Activity built with
only `actor=A` yields `A`.  Evaluating the embedded code at that input
instead raises `KeyError` on the `attributedTo` URI. -/
theorem c1_subproperty_read_keyerror :
    (do
      let a ← entityInit vocab "Object" [("name", KwArg.one (.str "foo"))] []
      let act ← entityInit vocab "Activity"
        [("actor", KwArg.one (.ent a))] []
      readProp vocab act "attributed_to") =
      .error (.keyError (asU "attributedTo")) ∧
    (do
      let a ← entityInit vocab "Object" [("name", KwArg.one (.str "foo"))] []
      let act ← entityInit vocab "Activity"
        [("actor", KwArg.one (.ent a))] []
      readProp vocab act "attributed_tos") =
      .error (.keyError (asU "attributedTo")) := ⟨rfl, rfl⟩

/-- **C2**: at the failing input (outbox GET without a cursor, first-cursor
supplier returning `"0"`, no last-cursor supplier, counter returning 3) the
handler passes `last=None` into the `OrderedCollection` constructor and the
serialization raises `TypeError`; no response is rendered. -/
theorem c2_outbox_last_none_crash :
    ∀ compactFn, serverCall c2Server c2Req compactFn =
      .crash (.typeError "cannot convert NoneType to JSON-LD") :=
  fun _ => rfl

/-- **C3** (counterexample): a request whose path matches no route and whose
accept header is non-empty and lists none of the three JSON media types is
answered by the not-found hook, not the not-acceptable hook: route matching
precedes content negotiation. -/
theorem c3_counterexample :
    acceptable [⟨"text", "html"⟩] = false ∧
    (∀ compactFn,
      serverCall emptyServer { baseReq with accept := [⟨"text", "html"⟩] }
        compactFn = .hook .notFound) ∧
    Response.hook .notFound ≠ Response.hook .notAcceptable := by
  refine ⟨rfl, fun _ => rfl, ?_⟩
  intro h
  cases h

/-- **C3** (amended): for every HTTP request whose path matches a route with
an allowed method and whose accept header is non-empty and accepts none of
`application/ld+json`, `application/activity+json`, `application/json`
(under werkzeug's wildcard-aware matching), the not-acceptable hook is
invoked. -/
theorem c3_negotiation_after_match (srv : ServerS) (req : Req)
    (compactFn : Json → Json) (ep : Endpoint) (handle : String)
    (hm : req.matchOutcome = .ok ep handle)
    (hne : req.accept ≠ [])
    (h1 : mimeContains req.accept "application" "ld+json" = false)
    (h2 : mimeContains req.accept "application" "activity+json" = false)
    (h3 : mimeContains req.accept "application" "json" = false) :
    serverCall srv req compactFn = .hook .notAcceptable := by
  have hlen : ¬ req.accept.length < 1 := by
    cases hacc : req.accept with
    | nil => exact absurd hacc hne
    | cons a rest => simp
  rw [serverCall, hm]
  simp [acceptable, h1, h2, h3, hlen]

theorem c3_negotiation_after_match_witness :
    htmlAcceptReq.matchOutcome = .ok .webfinger "x" ∧
    htmlAcceptReq.accept ≠ [] ∧
    serverCall emptyServer htmlAcceptReq id = .hook .notAcceptable :=
  ⟨rfl, by simp [htmlAcceptReq, baseReq],
    c3_negotiation_after_match emptyServer _ id .webfinger "x" rfl
      (by simp [htmlAcceptReq, baseReq]) rfl rfl rfl⟩

/-- **C4** (counterexample): when no actor dispatcher is registered, a
WebFinger request without a `resource` parameter is answered by the
not-found hook, not the direct 400 response the claim requires. -/
theorem c4_counterexample :
    (∀ compactFn,
      serverCall emptyServer { baseReq with matchOutcome := .ok .webfinger "" }
        compactFn = .hook .notFound) ∧
    ({ baseReq with matchOutcome := .ok .webfinger "" } : Req).queryResource
      = Option.none ∧
    Response.hook .notFound ≠
      .sent 400 "text/plain" (.text "Missing resource parameter") := by
  refine ⟨fun _ => rfl, rfl, ?_⟩
  intro h
  cases h

/-- **C4** (amended): provided an actor dispatcher is registered, every
request routed to the WebFinger endpoint without a `resource` query
parameter receives the direct 400 plain-text response
`Missing resource parameter`. -/
theorem c4_webfinger_missing_resource (srv : ServerS) (req : Req)
    (compactFn : Json → Json) (handle : String)
    (hd : srv.actorDispatcher.isSome)
    (hm : req.matchOutcome = .ok .webfinger handle)
    (ha : acceptable req.accept = true)
    (hr : req.queryResource = Option.none) :
    serverCall srv req compactFn =
      .sent 400 "text/plain" (.text "Missing resource parameter") := by
  obtain ⟨f, hf⟩ := Option.isSome_iff_exists.mp hd
  rw [serverCall, hm]
  simp only [ha, Bool.not_true, Bool.false_eq_true, if_false]
  rw [webfingerAsgi, hr]
  simp [hf]

theorem c4_webfinger_missing_resource_witness :
    actorlessServer.actorDispatcher.isSome = true ∧
    webfingerReq.queryResource = Option.none ∧
    serverCall actorlessServer webfingerReq id =
      .sent 400 "text/plain" (.text "Missing resource parameter") :=
  ⟨rfl, rfl, c4_webfinger_missing_resource _ _ id "x" rfl rfl rfl rfl⟩

/-- **C5**: when no actor dispatcher is registered, every request reaching
the WebFinger flow is answered by the not-found hook (which by default sends
404), regardless of its query parameters. -/
theorem c5_webfinger_dispatcherless_404 (srv : ServerS) (req : Req)
    (compactFn : Json → Json) (handle : String)
    (hd : srv.actorDispatcher = Option.none)
    (hm : req.matchOutcome = .ok .webfinger handle)
    (ha : acceptable req.accept = true) :
    serverCall srv req compactFn = .hook .notFound := by
  rw [serverCall, hm]
  simp only [ha, Bool.not_true, Bool.false_eq_true, if_false]
  rw [webfingerAsgi, hd]
  rfl

theorem c5_webfinger_dispatcherless_404_witness :
    emptyServer.actorDispatcher = Option.none ∧
    serverCall emptyServer webfingerResourceReq id = .hook .notFound :=
  ⟨rfl, c5_webfinger_dispatcherless_404 _ _ id "x" rfl rfl rfl⟩

theorem clsUris_find_go (l : List ClassSpec) (c : String) :
    (l.map (fun x => ({ cls := x.name, uri := x.uri } : ClsUri))).find?
        (fun cu => cu.cls = c) =
      (l.find? (fun x => x.name = c)).map
        (fun x => ({ cls := x.name, uri := x.uri } : ClsUri)) := by
  induction l with
  | nil => rfl
  | cons x rest ih =>
      by_cases hx : x.name = c
      · simp [List.find?_cons, hx]
      · simp [List.find?_cons, hx, ih]

theorem clsUris_find (tab : CTable) (c : String) (cs : ClassSpec)
    (h : tab.classSpec c = some cs) :
    tab.clsUris.find? (fun cu => cu.cls = c) =
      some { cls := cs.name, uri := cs.uri } := by
  unfold CTable.clsUris
  rw [clsUris_find_go]
  unfold CTable.classSpec at h
  rw [h]
  rfl

/-- **C6** (counterexample): parsing a document whose `@type` is
`[Object, Note]` against the abstract root yields an `Object`, although
`Note` is registered, appears in `@type`, and is a strictly more specific
subclass: the code picks the first `@type` entry, not the most specific
class. -/
theorem c6_counterexample :
    fromJsonld vocab 100 "Entity"
      (.obj [("@type", .arr [.str (asU "Object"), .str (asU "Note")])]) =
      .ok (.mk "Object" [] []) ∧
    alist.get vocab.registry (asU "Note") = some "Note" ∧
    vocab.subClass "Note" "Object" = true ∧
    ("Note" : String) ≠ "Object" :=
  ⟨rfl, rfl, rfl, by decide⟩

/-- **C6** (amended): when the target class is the abstract root or its URI
is not among the `@type` values, the parser continues with the class
registered for the *first* `@type` value (in document order) whose
registered class is a subtype of the target, and fails with the
`UnknownType` `ValueError` when no value qualifies. -/
theorem c6_type_dispatch_first_match (cls : String) (fuel : Nat)
    (kvs : List (String × Json)) (types : List Json)
    (hT : alist.get kvs "@type" = some (.arr types))
    (hdis : cls = "Entity" ∨
      ∃ u, vocab.uriOf cls = some u ∧ containsStr types u = false) :
    (∀ c, findDispatch vocab cls types = some c →
      parseDoc vocab (fuel + 1) cls (.obj kvs) =
        parseProps vocab c fuel kvs) ∧
    (findDispatch vocab cls types = Option.none →
      ∃ msg, parseDoc vocab (fuel + 1) cls (.obj kvs) =
        .error (.valueError msg)) ∧
    (∀ c, findDispatch vocab cls types = some c ↔
      ∃ pre s post, types = pre ++ Json.str s :: post ∧
        alist.get vocab.registry s = some c ∧
        vocab.subClass c cls = true ∧ ∀ j ∈ pre, noHit vocab cls j) := by
  refine ⟨?_, ?_, fun c => findDispatch_some_iff vocab cls types c⟩
  · intro c hc
    rcases hdis with rfl | ⟨u, hu, hcont⟩
    · simp [parseDoc, hT, hc]
    · have hne : cls ≠ "Entity" := by
        intro h
        subst h
        rw [show vocab.uriOf "Entity" = Option.none from rfl] at hu
        cases hu
      simp [parseDoc, hT, hne, hu, hcont, hc]
  · intro hc
    rcases hdis with rfl | ⟨u, hu, hcont⟩
    · exact ⟨"unsupported type", by simp [parseDoc, hT, hc]⟩
    · have hne : cls ≠ "Entity" := by
        intro h
        subst h
        rw [show vocab.uriOf "Entity" = Option.none from rfl] at hu
        cases hu
      exact ⟨"expected type " ++ u, by simp [parseDoc, hT, hne, hu, hcont, hc]⟩

theorem c6_type_dispatch_first_match_witness :
    alist.get [("@type", Json.arr [Json.str (asU "Note")])] "@type" =
      some (.arr [Json.str (asU "Note")]) ∧
    parseDoc vocab 51 "Entity"
      (.obj [("@type", Json.arr [Json.str (asU "Note")])]) =
      parseProps vocab "Note" 50 [("@type", Json.arr [Json.str (asU "Note")])] :=
  ⟨rfl,
    (c6_type_dispatch_first_match "Entity" 50
      [("@type", Json.arr [Json.str (asU "Note")])]
      [Json.str (asU "Note")] rfl (Or.inl rfl)).1 "Note" rfl⟩

/-- **C8**: the scalar encoder maps every string and every bool `v` to the
value node `{"@value": v}` carrying no `@type`, and every integer `v` to
`{"@value": v}` with `@type` `xsd:nonNegativeInteger` when `v ≥ 0` and
`xsd:integer` when `v < 0` (a bool matches the `str | bool` case first and
never receives an `@type`). -/
theorem c8_scalar_value_nodes :
    (∀ s : String, itemJsonld vocab.clsUris (.str s) =
      .ok (.obj [("@value", .str s)])) ∧
    (∀ b : Bool, itemJsonld vocab.clsUris (.boolv b) =
      .ok (.obj [("@value", .bool b)])) ∧
    (∀ n : Int, itemJsonld vocab.clsUris (.intv n) =
      .ok (.obj [("@value", .num n),
        ("@type",
         .str (if n < 0 then xsdInteger else xsdNonNegativeInteger))])) :=
  ⟨fun _ => rfl, fun _ => rfl, fun _ => rfl⟩

/-- **C9**: passing `None` as a singular keyword (as the outbox adapter does
for `first`/`last`/`total_items` when a supplier is absent) is accepted by
`SingularProperty.normalize` and stores the one-element slot `[None]`; the
result is unequal to the entity built without that keyword, and serializing
it raises `TypeError`, since `None` matches no scalar case of
`converters.jsonld`. -/
theorem c9_none_singular_slot (cls name : String) (d : PropSpec)
    (hd : vocab.descriptor cls name = some d) (hk : d.kind = .sing) :
    entityInit vocab cls [(name, .one .nonev)] [] =
      .ok (.mk cls [(d.uri, .seq [.nonev])] []) ∧
    entityInit vocab cls [] [] = .ok (.mk cls [] []) ∧
    pyEqEnt (.mk cls [(d.uri, .seq [.nonev])] []) (.mk cls [] []) = false ∧
    entJsonldExpand vocab.clsUris (.mk cls [(d.uri, .seq [.nonev])] []) =
      .error (.typeError "cannot convert NoneType to JSON-LD") := by
  have hcs : ∃ cs, vocab.classSpec cls = some cs := by
    unfold CTable.descriptor at hd
    cases hcs2 : vocab.classSpec cls with
    | none => rw [hcs2] at hd; cases hd
    | some cs => exact ⟨cs, rfl⟩
  obtain ⟨cs, hcs⟩ := hcs
  have hf := clsUris_find vocab cls cs hcs
  obtain ⟨dn, dk, du, dsub, dh⟩ := d
  subst hk
  refine ⟨?_, rfl, ?_, ?_⟩
  · simp [entityInit, entityInitGo, hd, alist.hasKey, alist.get,
      PropSpec.normalize, Bind.bind, Except.bind]
  · simp [pyEqEnt, pyEqValues]
  · simp [entJsonldExpand, entJsonldRaw, hf, valuesJsonld, slotItemsJsonld,
      itemJsonld, Bind.bind, Except.bind]

theorem c9_none_singular_slot_witness :
    entityInit vocab "OrderedCollection" [("last", .one .nonev)] [] =
      .ok (.mk "OrderedCollection" [(asU "last", .seq [.nonev])] []) ∧
    entityInit vocab "OrderedCollection" [] [] =
      .ok (.mk "OrderedCollection" [] []) ∧
    pyEqEnt (.mk "OrderedCollection" [(asU "last", .seq [.nonev])] [])
      (.mk "OrderedCollection" [] []) = false ∧
    entJsonldExpand vocab.clsUris
      (.mk "OrderedCollection" [(asU "last", .seq [.nonev])] []) =
      .error (.typeError "cannot convert NoneType to JSON-LD") :=
  c9_none_singular_slot "OrderedCollection" "last"
    (sp "last" (asU "last") (optU [.clsT "CollectionPage", .clsT "Link"]))
    rfl rfl

/-- **C10**: when a singular keyword and a plural keyword alias the same
property URI on a class, `singular=v` and `plural=[v]` build the same
`_values` mapping, so the two entities are `==`-equal and hash equal:
equality is keyed by property URI, never by the keyword used. -/
theorem c10_singular_plural_alias (cls sn pn : String) (ds dp : PropSpec)
    (v : Item)
    (hs : vocab.descriptor cls sn = some ds)
    (hp : vocab.descriptor cls pn = some dp)
    (hks : ds.kind = .sing) (hkp : dp.kind = .plur) (hu : ds.uri = dp.uri)
    (hv : pyEqItem v v = true) :
    ∃ e, entityInit vocab cls [(sn, .one v)] [] = .ok e ∧
      entityInit vocab cls [(pn, .many [v])] [] = .ok e ∧
      pyEqEnt e e = true ∧
      ∀ hT hS hI hJ, entHash hT hS hI hJ e = entHash hT hS hI hJ e := by
  obtain ⟨dsn, dsk, dsu, dss, dsh⟩ := ds
  obtain ⟨dpn, dpk, dpu, dps, dph⟩ := dp
  subst hks
  subst hkp
  have hu2 : dsu = dpu := hu
  subst hu2
  refine ⟨.mk cls [(dsu, .seq [v])] [], ?_, ?_, ?_, fun _ _ _ _ => rfl⟩
  · simp [entityInit, entityInitGo, hs, alist.hasKey, alist.get,
      PropSpec.normalize, Bind.bind, Except.bind]
  · simp [entityInit, entityInitGo, hp, alist.hasKey, alist.get,
      PropSpec.normalize, Bind.bind, Except.bind]
  · simp [pyEqEnt, pyEqValues, pyEqValuesIncl, pyEqSlot, pyEqItems,
      alist.get, pyEqExtra, pyEqJsonKvsIncl, hv]

theorem c10_singular_plural_alias_witness :
    ∃ e, entityInit vocab "Object" [("attachment", .one (.str "x"))] [] =
        .ok e ∧
      entityInit vocab "Object" [("attachments", .many [.str "x"])] [] =
        .ok e ∧
      pyEqEnt e e = true ∧
      ∀ hT hS hI hJ, entHash hT hS hI hJ e = entHash hT hS hI hJ e :=
  c10_singular_plural_alias "Object" "attachment" "attachments"
    (sp "attachment" (asU "attachment")
      (optU [.entityRefT, .clsT "Object", .clsT "Link"]))
    (pp "attachments" (asU "attachment")
      (seqU [.entityRefT, .clsT "Object", .clsT "Link"]))
    (.str "x") rfl rfl rfl rfl rfl rfl

end Fedikit



namespace Fedikit

theorem classSpec_name (c : String) (cs : ClassSpec)
    (h : vocab.classSpec c = some cs) : cs.name = c := by
  unfold CTable.classSpec at h
  simpa using List.find?_some h

theorem alist.get_append (xs ys : List (String × α)) (k : String) :
    alist.get (xs ++ ys) k =
      match alist.get xs k with
      | some v => some v
      | Option.none => alist.get ys k := by
  induction xs with
  | nil => rfl
  | cons kv rest ih =>
      obtain ⟨k1, v⟩ := kv
      by_cases hk : k1 = k
      · simp [alist.get, hk]
      · simp [alist.get, hk, ih]

theorem entityInitGo_restore (c : String) (vs : List (String × Slot))
    (hwf : wfValuesB c vs = true) :
    ∀ acc0 : List (String × Slot),
    (∀ u, alist.hasKey vs u = true → alist.hasKey acc0 u = false) →
    entityInitGo vocab c (kwargsOf c vs) acc0 = .ok (acc0 ++ vs) := by
  induction vs with
  | nil => intro acc0 _; simp [kwargsOf, entityInitGo]
  | cons kv rest ih =>
      obtain ⟨u, s⟩ := kv
      intro acc0 hdisj
      rw [wfValuesB] at hwf
      have hnk : alist.hasKey rest u = false := by
        cases h : alist.hasKey rest u <;> simp [h] at hwf ⊢
      have hws : wfSlotB c u s = true := by
        cases h : wfSlotB c u s <;> simp [h, hnk] at hwf ⊢
      have hwr : wfValuesB c rest = true := by
        cases h : wfValuesB c rest <;> simp [h, hnk, hws] at hwf ⊢
      have hku : alist.hasKey ((u, s) :: rest) u = true := by
        simp [alist.hasKey, alist.get]
      have hacc : alist.hasKey acc0 u = false := hdisj u hku
      have hstep : ∃ name kw d2,
          expectedKwDs (vocab.urisDescsSorted c u) s = some (name, kw) ∧
          vocab.descriptor c name = some d2 ∧ d2.uri = u ∧
          d2.normalize kw = .ok s := by
        cases s with
        | idv uid =>
            rw [wfSlotB] at hws
            cases hfa : firstAcceptingId (vocab.urisDescsSorted c u) with
            | none => rw [hfa] at hws; simp at hws
            | some d =>
                rw [hfa] at hws
                simp only [Bool.and_eq_true, decide_eq_true_eq] at hws
                obtain ⟨-, hdo, hkind⟩ := hws
                unfold descOk at hdo
                cases hd2 : vocab.descriptor c d.name with
                | none => rw [hd2] at hdo; simp at hdo
                | some d2 =>
                    rw [hd2] at hdo
                    simp only [Bool.and_eq_true, decide_eq_true_eq] at hdo
                    obtain ⟨n2, k2, u2, sb2, h2⟩ := d2
                    have hk2 : k2 = PKind.idp := by
                      have := hdo.2
                      simp only at this
                      rw [this, hkind]
                    subst hk2
                    refine ⟨d.name, .one (.str uid), _, ?_, hd2, hdo.1, rfl⟩
                    simp [expectedKwDs, hfa]
        | seq xs =>
            rw [wfSlotB] at hws
            cases hfa : firstAcceptingArr (vocab.urisDescsSorted c u) with
            | none => rw [hfa] at hws; simp at hws
            | some d =>
                rw [hfa] at hws
                simp only [Bool.and_eq_true, decide_eq_true_eq] at hws
                obtain ⟨-, hdo, hrest⟩ := hws
                unfold descOk at hdo
                cases hd2 : vocab.descriptor c d.name with
                | none => rw [hd2] at hdo; simp at hdo
                | some d2 =>
                    rw [hd2] at hdo
                    simp only [Bool.and_eq_true, decide_eq_true_eq] at hdo
                    obtain ⟨n2, k2, u2, sb2, h2⟩ := d2
                    cases hkind : d.kind with
                    | idp => rw [hkind] at hrest; simp at hrest
                    | plur =>
                        have hk2 : k2 = PKind.plur := by
                          have := hdo.2
                          simp only at this
                          rw [this, hkind]
                        subst hk2
                        refine ⟨d.name, .many xs, _, ?_, hd2, hdo.1, rfl⟩
                        simp [expectedKwDs, hfa, hkind]
                    | sing =>
                        have hk2 : k2 = PKind.sing := by
                          have := hdo.2
                          simp only at this
                          rw [this, hkind]
                        subst hk2
                        rw [hkind] at hrest
                        match xs, hrest with
                        | [x], hrest =>
                            refine ⟨d.name, .one x, _, ?_, hd2, hdo.1, rfl⟩
                            simp [expectedKwDs, hfa, hkind]
      obtain ⟨name, kw, d2, hekw, hd2, hd2u, hnorm⟩ := hstep
      have hkwargs : kwargsOf c ((u, s) :: rest) =
          (name, kw) :: kwargsOf c rest := by
        simp [kwargsOf, hekw]
      rw [hkwargs, entityInitGo]
      simp only [hd2, hd2u, hacc, Bool.false_eq_true, if_false, hnorm,
        Bind.bind, Except.bind]
      have ih2 := ih hwr (acc0 ++ [(u, s)]) ?_
      · rw [ih2]; simp
      · intro u2 hu2
        have hne : u ≠ u2 := by
          intro h
          subst h
          rw [hu2] at hnk
          cases hnk
        have h0 : alist.hasKey acc0 u2 = false := by
          apply hdisj
          simp only [alist.hasKey, alist.get]
          rw [if_neg hne]
          exact hu2
        simp only [alist.hasKey] at h0 ⊢
        rw [alist.get_append]
        cases hg : alist.get acc0 u2 with
        | some v => rw [hg] at h0; simp at h0
        | none =>
            simp only [alist.get]
            rw [if_neg hne]
            rfl

theorem entityInit_restore (c : String) (vs : List (String × Slot))
    (hwf : wfValuesB c vs = true) :
    entityInit vocab c (kwargsOf c vs) [] = .ok (.mk c vs []) := by
  rw [entityInit]
  have h := entityInitGo_restore c vs hwf [] (fun u _ => rfl)
  rw [h]
  rfl


theorem costPP_item_lt (tl : Nat) (xs : List Item) (x : Item) (hx : x ∈ xs) :
    costIt x < costPP tl xs := by
  induction xs with
  | nil => cases hx
  | cons y rest ih =>
      rw [costPP]
      rcases List.mem_cons.mp hx with rfl | hx2
      · have := Nat.le_max_left (tl + 1 + costIt x) (costPP tl rest)
        omega
      · have := Nat.le_max_right (tl + 1 + costIt y) (costPP tl rest)
        have := ih hx2
        omega

theorem costSlotT_item_lt (c u : String) (xs : List Item) (x : Item)
    (hx : x ∈ xs) : costIt x < costSlotT c u (.seq xs) := by
  rw [costSlotT]
  have := costPP_item_lt
    (slotTys (vocab.urisDescsSorted c u) (.seq xs)).length xs x hx
  omega

theorem costGoT_slot_lt (c : String) (vs : List (String × Slot))
    (u : String) (s : Slot) (h : (u, s) ∈ vs) :
    costSlotT c u s < costGoT c vs := by
  induction vs with
  | nil => cases h
  | cons kv rest ih =>
      obtain ⟨u1, s1⟩ := kv
      rw [costGoT]
      rcases List.mem_cons.mp h with heq | h2
      · cases heq
        have := Nat.le_max_left (costSlotT c u s) (costGoT c rest)
        omega
      · have := Nat.le_max_right (costSlotT c u1 s1) (costGoT c rest)
        have := ih h2
        omega

theorem conformsB_nonev (tys : List RType) :
    conformsB tys Item.nonev = false := by
  induction tys with
  | nil => rfl
  | cons t rest ih =>
      rw [conformsB]
      cases t <;> simp [acceptT, ih]

theorem conformsB_pylist (tys : List RType) (l : List Item) :
    conformsB tys (Item.pylist l) = false := by
  induction tys with
  | nil => rfl
  | cons t rest ih =>
      rw [conformsB]
      cases t <;> simp [acceptT, ih]

/-- What a well-formed item can be: a reference, a scalar, or a nested
well-formed entity. -/
theorem wfItemB_cases (tys : List RType) (x : Item)
    (h : wfItemB tys x = true) :
    (∃ u, x = .ref u) ∨ (∃ e, x = .ent e ∧ wfEntB e = true) ∨
    (x ≠ .nonev ∧ (∀ l, x ≠ .pylist l) ∧ (∀ e, x ≠ .ent e)) := by
  cases x with
  | ref u => exact Or.inl ⟨u, rfl⟩
  | ent e =>
      rw [wfItemB] at h
      simp only [Bool.and_eq_true] at h
      exact Or.inr (Or.inl ⟨e, rfl, h.2⟩)
  | nonev =>
      have h2 : conformsB tys Item.nonev = true := h
      rw [conformsB_nonev] at h2
      cases h2
  | pylist l =>
      have h2 : conformsB tys (Item.pylist l) = true := h
      rw [conformsB_pylist] at h2
      cases h2
  | str s => exact Or.inr (Or.inr ⟨by simp, by simp, by simp⟩)
  | boolv b => exact Or.inr (Or.inr ⟨by simp, by simp, by simp⟩)
  | intv n => exact Or.inr (Or.inr ⟨by simp, by simp, by simp⟩)
  | dt s => exact Or.inr (Or.inr ⟨by simp, by simp, by simp⟩)
  | duration s => exact Or.inr (Or.inr ⟨by simp, by simp, by simp⟩)
  | lang s => exact Or.inr (Or.inr ⟨by simp, by simp, by simp⟩)
  | langStr s t => exact Or.inr (Or.inr ⟨by simp, by simp, by simp⟩)

/-- All items of a well-formed sequence slot, as `wfItemB_cases` sees them,
regardless of which descriptor kind accepted the slot. -/
theorem wfSlotB_items (c u : String) (xs : List Item)
    (h : wfSlotB c u (.seq xs) = true) :
    ∀ x ∈ xs, (∃ r, x = .ref r) ∨ (∃ e, x = .ent e ∧ wfEntB e = true) ∨
      (x ≠ .nonev ∧ (∀ l, x ≠ .pylist l) ∧ (∀ e, x ≠ .ent e)) := by
  rw [wfSlotB] at h
  cases hfa : firstAcceptingArr (vocab.urisDescsSorted c u) with
  | none => rw [hfa] at h; simp at h
  | some d =>
      rw [hfa] at h
      simp only [Bool.and_eq_true] at h
      obtain ⟨-, -, hrest⟩ := h
      cases hkind : d.kind with
      | idp => rw [hkind] at hrest; simp at hrest
      | plur =>
          rw [hkind] at hrest
          cases hrp : resolvePlural d.hint with
          | error err => rw [hrp] at hrest; simp at hrest
          | ok tys =>
              rw [hrp] at hrest
              intro x hx
              have : wfItemB tys x = true := by
                clear hrp hfa
                induction xs with
                | nil => cases hx
                | cons y rest ih =>
                    have hstep : (wfItemB tys y && wfItemsB tys rest) = true :=
                      hrest
                    simp only [Bool.and_eq_true] at hstep
                    rcases List.mem_cons.mp hx with rfl | hx2
                    · exact hstep.1
                    · exact ih hstep.2 hx2
              exact wfItemB_cases tys x this
      | sing =>
          rw [hkind] at hrest
          match xs, hrest with
          | [x], hrest =>
              cases hrs : resolveSingular d.hint with
              | error err => rw [hrs] at hrest; simp at hrest
              | ok tys =>
                  rw [hrs] at hrest
                  intro y hy
                  rcases List.mem_cons.mp hy with rfl | hy2
                  · exact wfItemB_cases tys y hrest
                  · cases hy2


/-- `expandKvs` keeps a nonempty-list property entry, canonicalizing its
elements. -/
theorem expandKvs_seq (u : String) (h1 : u ≠ "@type") (h4 : u ≠ "@id")
    (h3 : u ≠ "@language") (x : Json) (xs : List Json)
    (rest : List (String × Json)) :
    expandKvs ((u, .arr (x :: xs)) :: rest) =
      Except.bind (expandList (x :: xs)) (fun l =>
        Except.bind (expandKvs rest) (fun r =>
          .ok ((u, .arr l) :: r))) := by
  rw [expandKvs]
  rw [if_neg h1, if_neg h4, if_neg h3]
  · rfl
  · intro h
    cases h

/-- The serializer on one well-formed sequence slot's items, with the
nested-entity shape facts supplied (`IH`). -/
theorem serItemsShape (n : Nat)
    (IH : ∀ g, g < n → ∀ e, costE e ≤ g → wfEntB e = true →
      refFreeE e = true →
      entJsonldRaw vocab.clsUris e = .ok (rawDoc e) ∧
      expandJson (rawDoc e) = .ok (serDoc e) ∧
      expandJson (serDoc e) = .ok (serDoc e))
    (xs : List Item)
    (hxs : ∀ x ∈ xs,
      ((∃ r, x = .ref r) ∨ (∃ e, x = .ent e ∧ wfEntB e = true) ∨
        (x ≠ .nonev ∧ (∀ l, x ≠ .pylist l) ∧ (∀ e, x ≠ .ent e))) ∧
      costIt x < n)
    (hrf : refFreeItems xs = true) :
    slotItemsJsonld vocab.clsUris xs = .ok (serItems xs) ∧
    expandList (serItems xs) = .ok (serItems xs) := by
  induction xs with
  | nil => exact ⟨rfl, rfl⟩
  | cons x rest ih =>
      obtain ⟨hd, hc⟩ := hxs x (List.mem_cons_self x rest)
      rw [refFreeItems, Bool.and_eq_true] at hrf
      have ihr := ih (fun y hy => hxs y (List.mem_cons_of_mem _ hy)) hrf.2
      rcases hd with ⟨r, rfl⟩ | ⟨e, rfl, hwe⟩ | ⟨h1, h2, h3⟩
      · exact absurd hrf.1 (by simp [refFreeItem])
      · have hre : refFreeE e = true := hrf.1
        have hsh := IH (costIt (Item.ent e)) hc e (by rw [costIt]) hwe hre
        constructor
        · have hred : slotItemsJsonld vocab.clsUris (Item.ent e :: rest) =
              (do
                let j ← itemJsonld vocab.clsUris (Item.ent e)
                let js ← slotItemsJsonld vocab.clsUris rest
                Except.ok (j :: js)) := rfl
          rw [hred, itemJsonld, hsh.1, ihr.1]
          show Except.bind (expandJson (rawDoc e))
              (fun j => Except.ok (j :: serItems rest)) = _
          rw [hsh.2.1]
          rfl
        · rw [serItems, expandList, ihr.2]
          show Except.bind (expandJson (serDoc e))
              (fun y => Except.ok (y :: serItems rest)) = _
          rw [hsh.2.2]
          rfl
      · cases x <;>
          simp_all [slotItemsJsonld, itemJsonld, serItems, serItem,
            expandList, expandJson, alist.hasKey, alist.get, expandKvs,
            refFreeItem, Bind.bind, Except.bind]

/-- The serializer on a well-formed `_values` mapping, with the
nested-entity shape facts supplied (`IH`). -/
theorem serValuesShape (n : Nat)
    (IH : ∀ g, g < n → ∀ e, costE e ≤ g → wfEntB e = true →
      refFreeE e = true →
      entJsonldRaw vocab.clsUris e = .ok (rawDoc e) ∧
      expandJson (rawDoc e) = .ok (serDoc e) ∧
      expandJson (serDoc e) = .ok (serDoc e))
    (c : String) (vs : List (String × Slot))
    (hwv : wfValuesB c vs = true) (hn : costGoT c vs ≤ n)
    (hrv : refFreeValues vs = true) :
    valuesJsonld vocab.clsUris vs = .ok (serValues vs) ∧
    expandKvs (serValues vs) = .ok (serValues vs) ∧
    alist.get (serValues vs) "@value" = Option.none := by
  induction vs with
  | nil => exact ⟨rfl, rfl, rfl⟩
  | cons kv rest ih =>
      obtain ⟨u, s⟩ := kv
      rw [wfValuesB] at hwv
      rw [refFreeValues, Bool.and_eq_true] at hrv
      simp only [Bool.and_eq_true] at hwv
      obtain ⟨⟨-, hws⟩, hwr⟩ := hwv
      have hnr : costGoT c rest ≤ n := by
        rw [costGoT] at hn
        have := Nat.le_max_right (costSlotT c u s) (costGoT c rest)
        omega
      have ihr := ih hwr hnr hrv.2
      cases s with
      | idv uid =>
          have huid : u = "@id" := by
            rw [wfSlotB] at hws
            simp only [Bool.and_eq_true, decide_eq_true_eq] at hws
            exact hws.1
          subst huid
          refine ⟨?_, ?_, ?_⟩
          · rw [valuesJsonld, ihr.1]
            rfl
          · show Except.bind (expandKvs (serValues rest))
              (fun r => Except.ok (("@id", Json.str uid) :: r)) = _
            rw [ihr.2.1]
            rfl
          · rw [serValues]
            show alist.get (("@id", Json.str uid) :: serValues rest)
              "@value" = Option.none
            rw [alist.get, if_neg (by decide)]
            exact ihr.2.2
      | seq xs =>
          have hkeys : u ≠ "@type" ∧ u ≠ "@value" ∧ u ≠ "@language" ∧
              u ≠ "@id" ∧ xs ≠ [] := by
            rw [wfSlotB] at hws
            simp only [Bool.and_eq_true, decide_eq_true_eq,
              Bool.not_eq_true'] at hws
            obtain ⟨⟨⟨⟨⟨hne, h1⟩, h2⟩, h3⟩, h4⟩, -⟩ := hws
            exact ⟨h1, h2, h3, h4, by simpa [List.isEmpty_iff] using hne⟩
          have hitems := wfSlotB_items c u xs hws
          have hri : refFreeItems xs = true := hrv.1
          have hsi := serItemsShape n IH xs (fun x hx => ⟨hitems x hx, by
            have h1 := costSlotT_item_lt c u xs x hx
            have h2 := Nat.le_max_left (costSlotT c u (.seq xs))
              (costGoT c rest)
            rw [costGoT] at hn
            omega⟩) hri
          refine ⟨?_, ?_, ?_⟩
          · rw [valuesJsonld, hsi.1, ihr.1]
            rfl
          · rw [serValues]
            show expandKvs ((u, Json.arr (serItems xs)) :: serValues rest) = _
            have hne : serItems xs ≠ [] := by
              cases xs with
              | nil => exact absurd rfl hkeys.2.2.2.2
              | cons a b => rw [serItems]; simp
            cases hsx : serItems xs with
            | nil => exact absurd hsx hne
            | cons a b =>
                rw [expandKvs_seq u hkeys.1 hkeys.2.2.2.1 hkeys.2.2.1]
                rw [← hsx, hsi.2, ihr.2.1]
                rfl
          · rw [serValues]
            show alist.get ((u, Json.arr (serItems xs)) :: serValues rest)
              "@value" = Option.none
            rw [alist.get, if_neg hkeys.2.1]
            exact ihr.2.2

/-- `Entity.__jsonld__(expand=True)` on the well-formed ref-free fragment
produces exactly the mirror document `serDoc`, and the expansion is the
identity on that document. -/
theorem serShapeAux (n : Nat) :
    ∀ e, costE e ≤ n → wfEntB e = true → refFreeE e = true →
      entJsonldRaw vocab.clsUris e = .ok (rawDoc e) ∧
      expandJson (rawDoc e) = .ok (serDoc e) ∧
      expandJson (serDoc e) = .ok (serDoc e) := by
  induction n using Nat.strong_induction_on with
  | _ n IH =>
    intro e hn hwf hrf
    obtain ⟨c, values, extra⟩ := e
    have hwf2 : ((vocab.classSpec c).isSome &&
        extra.isEmpty &&
        (vocab.urisDescsSorted c "@type").isEmpty &&
        wfValuesB c values) = true := hwf
    simp only [Bool.and_eq_true] at hwf2
    obtain ⟨⟨⟨hcs, hex⟩, -⟩, hwv⟩ := hwf2
    have hex0 : extra = [] := by simpa [List.isEmpty_iff] using hex
    subst hex0
    rw [Option.isSome_iff_exists] at hcs
    obtain ⟨cs, hcs⟩ := hcs
    have hname := classSpec_name c cs hcs
    have hfind := clsUris_find vocab c cs hcs
    have huri : vocab.uriOf c = some cs.uri := by
      rw [CTable.uriOf, hcs]
      rfl
    have hgo : costGoT c values ≤ n := by
      have h3 : costE (Ent.mk c values []) = 3 + costGoT c values := rfl
      exact le_trans (Nat.le_add_left _ 3) (h3 ▸ hn)
    have hrv : refFreeValues values = true := hrf
    have hvals := serValuesShape n (fun g hg => IH g hg) c values hwv hgo hrv
    have hfind2 : List.find? (fun cu => cu.cls = c) vocab.clsUris =
        some { cls := cs.name, uri := cs.uri } := hfind
    refine ⟨?_, ?_, ?_⟩
    · rw [entJsonldRaw, hfind2]
      show (do
        let vals ← valuesJsonld vocab.clsUris values
        let base := ("@type", Json.str cs.uri) :: vals
        Except.ok (Json.obj (List.foldl
          (fun kvs (kv : String × Json) => alist.set kvs kv.1 kv.2) base
          []))) = _
      rw [hvals.1]
      show Except.ok (Json.obj
        (("@type", Json.str cs.uri) :: serValues values)) = _
      rw [rawDoc, huri]
      rfl
    · rw [rawDoc, huri]
      show expandJson (Json.obj
        (("@type", Json.str cs.uri) :: serValues values)) = _
      rw [expandJson]
      have hhk : alist.hasKey
          (("@type", Json.str cs.uri) :: serValues values) "@value" =
          false := by
        simp only [alist.hasKey, alist.get, if_neg (by decide : ¬("@type" = "@value"))]
        rw [hvals.2.2]
        rfl
      rw [if_neg (by simp [hhk])]
      have hstep : expandKvs
          (("@type", Json.str cs.uri) :: serValues values) =
          Except.bind (expandKvs (serValues values)) (fun r =>
            Except.ok (("@type", Json.arr [Json.str cs.uri]) :: r)) := rfl
      rw [hstep, hvals.2.1, serDoc, huri]
      rfl
    · rw [serDoc, huri]
      show expandJson (Json.obj
        (("@type", Json.arr [Json.str cs.uri]) :: serValues values)) = _
      rw [expandJson]
      have hhk : alist.hasKey
          (("@type", Json.arr [Json.str cs.uri]) :: serValues values)
          "@value" = false := by
        simp only [alist.hasKey, alist.get, if_neg (by decide : ¬("@type" = "@value"))]
        rw [hvals.2.2]
        rfl
      rw [if_neg (by simp [hhk])]
      have hstep : expandKvs
          (("@type", Json.arr [Json.str cs.uri]) :: serValues values) =
          Except.bind (expandKvs (serValues values)) (fun r =>
            Except.ok (("@type", Json.arr [Json.str cs.uri]) :: r)) := rfl
      rw [hstep, hvals.2.1]
      rfl

/-- The expansion is the identity on the serialized items of a well-formed
sequence slot — `EntityRef` items included, since on the already expanded
side they are string-`@id` nodes (`serItem`), unlike in the raw document. -/
theorem serItemsIdem (n : Nat)
    (IH : ∀ g, g < n → ∀ e, costE e ≤ g → wfEntB e = true →
      expandJson (serDoc e) = .ok (serDoc e))
    (xs : List Item)
    (hxs : ∀ x ∈ xs,
      ((∃ r, x = .ref r) ∨ (∃ e, x = .ent e ∧ wfEntB e = true) ∨
        (x ≠ .nonev ∧ (∀ l, x ≠ .pylist l) ∧ (∀ e, x ≠ .ent e))) ∧
      costIt x < n) :
    expandList (serItems xs) = .ok (serItems xs) := by
  induction xs with
  | nil => rfl
  | cons x rest ih =>
      obtain ⟨hd, hc⟩ := hxs x (List.mem_cons_self x rest)
      have ihr := ih (fun y hy => hxs y (List.mem_cons_of_mem _ hy))
      rcases hd with ⟨r, rfl⟩ | ⟨e, rfl, hwe⟩ | ⟨h1, h2, h3⟩
      · rw [serItems, expandList, ihr]
        rfl
      · have hsh := IH (costIt (Item.ent e)) hc e (by rw [costIt]) hwe
        rw [serItems, expandList, ihr]
        show Except.bind (expandJson (serDoc e))
            (fun y => Except.ok (y :: serItems rest)) = _
        rw [hsh]
        rfl
      · cases x <;>
          simp_all [serItems, serItem, expandList, expandJson,
            alist.hasKey, alist.get, expandKvs, Bind.bind, Except.bind]

/-- The expansion is the identity on the serialized `_values` entries of a
well-formed entity, and they carry no `@value` key (see `serItemsIdem`). -/
theorem serValuesIdem (n : Nat)
    (IH : ∀ g, g < n → ∀ e, costE e ≤ g → wfEntB e = true →
      expandJson (serDoc e) = .ok (serDoc e))
    (c : String) (vs : List (String × Slot))
    (hwv : wfValuesB c vs = true) (hn : costGoT c vs ≤ n) :
    expandKvs (serValues vs) = .ok (serValues vs) ∧
    alist.get (serValues vs) "@value" = Option.none := by
  induction vs with
  | nil => exact ⟨rfl, rfl⟩
  | cons kv rest ih =>
      obtain ⟨u, s⟩ := kv
      rw [wfValuesB] at hwv
      simp only [Bool.and_eq_true] at hwv
      obtain ⟨⟨-, hws⟩, hwr⟩ := hwv
      have hnr : costGoT c rest ≤ n := by
        rw [costGoT] at hn
        have := Nat.le_max_right (costSlotT c u s) (costGoT c rest)
        omega
      have ihr := ih hwr hnr
      cases s with
      | idv uid =>
          have huid : u = "@id" := by
            rw [wfSlotB] at hws
            simp only [Bool.and_eq_true, decide_eq_true_eq] at hws
            exact hws.1
          subst huid
          refine ⟨?_, ?_⟩
          · show Except.bind (expandKvs (serValues rest))
              (fun r => Except.ok (("@id", Json.str uid) :: r)) = _
            rw [ihr.1]
            rfl
          · rw [serValues]
            show alist.get (("@id", Json.str uid) :: serValues rest)
              "@value" = Option.none
            rw [alist.get, if_neg (by decide)]
            exact ihr.2
      | seq xs =>
          have hkeys : u ≠ "@type" ∧ u ≠ "@value" ∧ u ≠ "@language" ∧
              u ≠ "@id" ∧ xs ≠ [] := by
            rw [wfSlotB] at hws
            simp only [Bool.and_eq_true, decide_eq_true_eq,
              Bool.not_eq_true'] at hws
            obtain ⟨⟨⟨⟨⟨hne, h1⟩, h2⟩, h3⟩, h4⟩, -⟩ := hws
            exact ⟨h1, h2, h3, h4, by simpa [List.isEmpty_iff] using hne⟩
          have hitems := wfSlotB_items c u xs hws
          have hsi := serItemsIdem n IH xs (fun x hx => ⟨hitems x hx, by
            have h1 := costSlotT_item_lt c u xs x hx
            have h2 := Nat.le_max_left (costSlotT c u (.seq xs))
              (costGoT c rest)
            rw [costGoT] at hn
            omega⟩)
          refine ⟨?_, ?_⟩
          · rw [serValues]
            show expandKvs ((u, Json.arr (serItems xs)) :: serValues rest) = _
            have hne : serItems xs ≠ [] := by
              cases xs with
              | nil => exact absurd rfl hkeys.2.2.2.2
              | cons a b => rw [serItems]; simp
            cases hsx : serItems xs with
            | nil => exact absurd hsx hne
            | cons a b =>
                rw [expandKvs_seq u hkeys.1 hkeys.2.2.2.1 hkeys.2.2.1]
                rw [← hsx, hsi, ihr.1]
                rfl
          · rw [serValues]
            show alist.get ((u, Json.arr (serItems xs)) :: serValues rest)
              "@value" = Option.none
            rw [alist.get, if_neg hkeys.2.1]
            exact ihr.2

/-- The expansion is the identity on the mirror document of any well-formed
entity — no ref-freeness needed, since the mirror carries references as
string-`@id` nodes.  This is the re-expansion `Entity.__from_jsonld__`
performs when a candidate-type conversion recurses into a nested node. -/
theorem serIdemAux (n : Nat) :
    ∀ e, costE e ≤ n → wfEntB e = true →
      expandJson (serDoc e) = .ok (serDoc e) := by
  induction n using Nat.strong_induction_on with
  | _ n IH =>
    intro e hn hwf
    obtain ⟨c, values, extra⟩ := e
    have hwf2 : ((vocab.classSpec c).isSome &&
        extra.isEmpty &&
        (vocab.urisDescsSorted c "@type").isEmpty &&
        wfValuesB c values) = true := hwf
    simp only [Bool.and_eq_true] at hwf2
    obtain ⟨⟨⟨hcs, hex⟩, -⟩, hwv⟩ := hwf2
    rw [Option.isSome_iff_exists] at hcs
    obtain ⟨cs, hcs⟩ := hcs
    have huri : vocab.uriOf c = some cs.uri := by
      rw [CTable.uriOf, hcs]
      rfl
    have hgo : costGoT c values ≤ n := by
      have h3 : costE (Ent.mk c values extra) = 3 + costGoT c values := rfl
      exact le_trans (Nat.le_add_left _ 3) (h3 ▸ hn)
    have hvals := serValuesIdem n (fun g hg => IH g hg) c values hwv hgo
    rw [serDoc, huri]
    show expandJson (Json.obj
      (("@type", Json.arr [Json.str cs.uri]) :: serValues values)) = _
    rw [expandJson]
    have hhk : alist.hasKey
        (("@type", Json.arr [Json.str cs.uri]) :: serValues values)
        "@value" = false := by
      simp only [alist.hasKey, alist.get, if_neg (by decide : ¬("@type" = "@value"))]
      rw [hvals.2]
      rfl
    rw [if_neg (by simp [hhk])]
    have hstep : expandKvs
        (("@type", Json.arr [Json.str cs.uri]) :: serValues values) =
        Except.bind (expandKvs (serValues values)) (fun r =>
          Except.ok (("@type", Json.arr [Json.str cs.uri]) :: r)) := rfl
    rw [hstep, hvals.1]
    rfl


theorem alist.hasKey_of_mem (vs : List (String × α)) (u : String) (s : α)
    (h : (u, s) ∈ vs) : alist.hasKey vs u = true := by
  induction vs with
  | nil => cases h
  | cons kv rest ih =>
      obtain ⟨k, v⟩ := kv
      by_cases hk : k = u
      · simp [alist.hasKey, alist.get, hk]
      · rcases List.mem_cons.mp h with heq | hm2
        · cases heq; exact absurd rfl hk
        · simp only [alist.hasKey, alist.get, if_neg hk]
          exact ih hm2

theorem wfValuesB_get (c : String) (vs : List (String × Slot))
    (hwf : wfValuesB c vs = true) :
    ∀ u s, (u, s) ∈ vs → alist.get vs u = some s := by
  induction vs with
  | nil => intro u s h; cases h
  | cons kv rest ih =>
      obtain ⟨k, v⟩ := kv
      rw [wfValuesB] at hwf
      simp only [Bool.and_eq_true, Bool.not_eq_true'] at hwf
      obtain ⟨⟨hk, -⟩, hwr⟩ := hwf
      intro u s hm
      rcases List.mem_cons.mp hm with heq | hm2
      · cases heq; rw [alist.get, if_pos rfl]
      · have hne : k ≠ u := by
          intro h
          subst h
          rw [alist.hasKey_of_mem rest k s hm2] at hk
          cases hk
        rw [alist.get, if_neg hne]
        exact ih hwr u s hm2

theorem wfValuesB_slot (c : String) (vs : List (String × Slot))
    (hwf : wfValuesB c vs = true) :
    ∀ u s, (u, s) ∈ vs → wfSlotB c u s = true := by
  induction vs with
  | nil => intro u s h; cases h
  | cons kv rest ih =>
      obtain ⟨k, v⟩ := kv
      rw [wfValuesB] at hwf
      simp only [Bool.and_eq_true] at hwf
      obtain ⟨⟨-, hws⟩, hwr⟩ := hwf
      intro u s hm
      rcases List.mem_cons.mp hm with heq | hm2
      · cases heq; exact hws
      · exact ih hwr u s hm2

theorem pyEqValuesIncl_sub (full : List (String × Slot)) :
    ∀ vs, (∀ u s, (u, s) ∈ vs →
      alist.get full u = some s ∧ pyEqSlot s s = true) →
    pyEqValuesIncl vs full = true := by
  intro vs
  induction vs with
  | nil => intro _; rfl
  | cons kv rest ih =>
      obtain ⟨k, v⟩ := kv
      intro h
      have hh := h k v (List.mem_cons_self _ _)
      rw [pyEqValuesIncl, hh.1]
      simp only [Bool.and_eq_true]
      exact ⟨hh.2, ih (fun u s hm => h u s (List.mem_cons_of_mem _ hm))⟩

theorem pyEqItems_self (xs : List Item)
    (h : ∀ x ∈ xs, pyEqItem x x = true) : pyEqItems xs xs = true := by
  induction xs with
  | nil => rfl
  | cons x rest ih =>
      rw [pyEqItems]
      simp only [Bool.and_eq_true]
      exact ⟨h x (List.mem_cons_self x rest),
        ih (fun y hy => h y (List.mem_cons_of_mem _ hy))⟩

/-- Python `==` is reflexive on the well-formed fragment (the property the
round-trip conclusion is read through: the reparsed entity, being the same
value, is `==`-equal to the original). -/
theorem pyEqReflAux (n : Nat) :
    ∀ e, costE e ≤ n → wfEntB e = true → pyEqEnt e e = true := by
  induction n using Nat.strong_induction_on with
  | _ n IH =>
  intro e hn hwf
  obtain ⟨c, values, extra⟩ := e
  have hwf2 : ((vocab.classSpec c).isSome &&
      extra.isEmpty &&
      (vocab.urisDescsSorted c "@type").isEmpty &&
      wfValuesB c values) = true := hwf
  simp only [Bool.and_eq_true] at hwf2
  obtain ⟨⟨⟨-, hex⟩, -⟩, hwv⟩ := hwf2
  have hex0 : extra = [] := by simpa [List.isEmpty_iff] using hex
  subst hex0
  have hgo : costGoT c values ≤ n := by
    have h3 : costE (Ent.mk c values []) = 3 + costGoT c values := rfl
    exact le_trans (Nat.le_add_left _ 3) (h3 ▸ hn)
  have hslot : ∀ u s, (u, s) ∈ values → pyEqSlot s s = true := by
    intro u s hm
    have hws := wfValuesB_slot c values hwv u s hm
    cases s with
    | idv uid => simp [pyEqSlot]
    | seq xs =>
        rw [pyEqSlot]
        apply pyEqItems_self
        intro x hx
        have hcost : costIt x < n := by
          have h1 := costSlotT_item_lt c u xs x hx
          have h2 := costGoT_slot_lt c values u (.seq xs) hm
          omega
        rcases wfSlotB_items c u xs hws x hx with
          ⟨r, rfl⟩ | ⟨e2, rfl, hwe⟩ | ⟨h1, h2, h3⟩
        · simp [pyEqItem]
        · have := IH (costIt (Item.ent e2)) hcost e2 (by rw [costIt]) hwe
          obtain ⟨c2, v2, x2⟩ := e2
          exact this
        · cases x <;> simp_all [pyEqItem]
  rw [pyEqEnt]
  simp only [Bool.and_eq_true]
  refine ⟨⟨by simp, ?_⟩, by rfl⟩
  rw [pyEqValues]
  simp only [Bool.and_eq_true]
  refine ⟨by simp, ?_⟩
  apply pyEqValuesIncl_sub
  intro u s hm
  exact ⟨wfValuesB_get c values hwv u s hm, hslot u s hm⟩


theorem costSlotT_eq (c u : String) (s : Slot) :
    costSlotT c u s = costDs (vocab.urisDescsSorted c u) s := by
  cases s <;> rfl

theorem wfSlotB_to_ds (c u : String) (s : Slot)
    (h : wfSlotB c u s = true) :
    slotDsOk (vocab.urisDescsSorted c u) s = true := by
  cases s with
  | idv uid =>
      rw [wfSlotB] at h
      rw [slotDsOk]
      cases hfa : firstAcceptingId (vocab.urisDescsSorted c u) with
      | none => rw [hfa] at h; simp at h
      | some d => simp
  | seq xs =>
      rw [wfSlotB] at h
      rw [slotDsOk]
      cases hfa : firstAcceptingArr (vocab.urisDescsSorted c u) with
      | none => rw [hfa] at h; simp at h
      | some d =>
          rw [hfa] at h
          simp only [Bool.and_eq_true] at h
          exact h.2.2

theorem resolvePlural_cases (t : PyType) :
    (∃ tys, resolvePlural t = .ok tys) ∨
    (∃ m, resolvePlural t = .error (.typeError m)) := by
  cases t
  case seqT elem =>
    cases elem
    case unionT ts =>
        by_cases hb : (ts.map resolveMember).contains RType.badT
        · right
          exact ⟨_, by simp only [resolvePlural]; rw [if_pos hb]⟩
        · left
          exact ⟨_, by simp only [resolvePlural]; rw [if_neg hb]⟩
    all_goals first
      | (left; exact ⟨_, rfl⟩)
      | (right; exact ⟨_, rfl⟩)
  all_goals right; exact ⟨_, rfl⟩

theorem resolveSingular_cases (t : PyType) :
    (∃ tys, resolveSingular t = .ok tys) ∨
    (∃ m, resolveSingular t = .error (.typeError m)) := by
  cases t
  case unionT ts =>
      by_cases hb : (ts.map resolveMember).contains RType.badT
      · right
        exact ⟨_, by simp only [resolveSingular]; rw [if_pos hb]⟩
      · left
        exact ⟨_, by simp only [resolveSingular]; rw [if_neg hb]⟩
  all_goals first
    | (left; exact ⟨_, rfl⟩)
    | (right; exact ⟨_, rfl⟩)

theorem acceptT_clsT_yes (c2 : String) (e : Ent)
    (h : acceptT (.clsT c2) (.ent e) = .yes) :
    ∃ ue uc, vocab.uriOf e.cls = some ue ∧ vocab.uriOf c2 = some uc ∧
      (c2 = e.cls ∧ uc = ue ∨
       c2 ≠ e.cls ∧ uc ≠ ue ∧ alist.get vocab.registry ue = some e.cls ∧
         vocab.subClass e.cls c2 = true) := by
  simp only [acceptT] at h
  split at h
  · rename_i ue uc heq1 heq2
    refine ⟨ue, uc, heq1, heq2, ?_⟩
    split at h
    · rename_i hc
      subst hc
      rw [heq1] at heq2
      cases heq2
      exact Or.inl ⟨rfl, rfl⟩
    · rename_i hc
      split at h
      · cases h
      · rename_i hu
        split at h
        · rename_i c3 heq3
          split at h
          · rename_i hc3
            subst hc3
            split at h
            · rename_i hsub
              exact Or.inr ⟨hc, hu, heq3, hsub⟩
            · cases h
          · rename_i hc3
            split at h <;> cases h
        · cases h
  · cases h

theorem acceptT_clsT_skip (c2 : String) (e : Ent)
    (h : acceptT (.clsT c2) (.ent e) = .skip) :
    ∃ ue uc, vocab.uriOf e.cls = some ue ∧ vocab.uriOf c2 = some uc ∧
      c2 ≠ e.cls ∧ uc ≠ ue ∧
      (alist.get vocab.registry ue = Option.none ∨
       ∃ c3, alist.get vocab.registry ue = some c3 ∧
         vocab.subClass c3 c2 = false) := by
  simp only [acceptT] at h
  split at h
  · rename_i ue uc heq1 heq2
    refine ⟨ue, uc, heq1, heq2, ?_⟩
    split at h
    · cases h
    · rename_i hc
      split at h
      · cases h
      · rename_i hu
        split at h
        · rename_i c3 heq3
          split at h
          · rename_i hc3
            subst hc3
            split at h
            · cases h
            · rename_i hsub
              exact ⟨hc, hu, Or.inr ⟨_, heq3, by simpa using hsub⟩⟩
          · rename_i hc3
            split at h
            · cases h
            · rename_i hsub
              exact ⟨hc, hu, Or.inr ⟨c3, heq3, by simpa using hsub⟩⟩
        · rename_i heq3
          exact ⟨hc, hu, Or.inl heq3⟩
  · cases h

theorem uriOf_Entity : vocab.uriOf "Entity" = Option.none := rfl

theorem isIdOnly_ref (r : String) :
    isIdOnly (serItem (.ref r)) = some r := rfl

theorem isIdOnly_nonref (i : Item) (hr : ∀ r, i ≠ .ref r) :
    isIdOnly (serItem i) = Option.none := by
  cases i with
  | ref r => exact absurd rfl (hr r)
  | ent e =>
      obtain ⟨c, vs, ex⟩ := e
      show isIdOnly (Json.obj (("@type", _) :: serValues vs)) = Option.none
      cases serValues vs <;> rfl
  | _ => rfl

theorem expectedKwDs_isSome (ds : List PropSpec) (s : Slot)
    (h : slotDsOk ds s = true) :
    ∃ nk, expectedKwDs ds s = some nk := by
  cases s with
  | idv uid =>
      rw [slotDsOk] at h
      rw [Option.isSome_iff_exists] at h
      obtain ⟨d, hd⟩ := h
      exact ⟨(d.name, .one (.str uid)), by rw [expectedKwDs, hd]; rfl⟩
  | seq xs =>
      rw [slotDsOk] at h
      cases hfa : firstAcceptingArr ds with
      | none => rw [hfa] at h; simp at h
      | some d =>
          refine ⟨(d.name, match d.kind with
            | .plur => KwArg.many xs
            | _ => KwArg.one (xs.headD .nonev)), ?_⟩
          rw [expectedKwDs, hfa]
          rfl


theorem pyIntOfString_cases (s : String) :
    (∃ k, pyIntOfString s = .ok k) ∨
    pyIntOfString s = .error (.valueError ("invalid literal for int: " ++ s)) := by
  unfold pyIntOfString
  dsimp only
  split
  all_goals split
  all_goals first
    | exact Or.inl ⟨_, rfl⟩
    | exact Or.inr rfl

theorem wfItemB_parts (tys : List RType) (x : Item)
    (h : wfItemB tys x = true) (hr : ∀ r, x ≠ .ref r) :
    conformsB tys x = true ∧ wfItemPlain x = true := by
  cases x with
  | ref r => exact absurd rfl (hr r)
  | ent e =>
      have h2 : (conformsB tys (.ent e) && wfEntB e) = true := h
      simp only [Bool.and_eq_true] at h2
      exact ⟨h2.1, h2.2⟩
  | str s => exact ⟨h, rfl⟩
  | boolv b => exact ⟨h, rfl⟩
  | intv n => exact ⟨h, rfl⟩
  | dt a => exact ⟨h, rfl⟩
  | duration a => exact ⟨h, rfl⟩
  | lang a => exact ⟨h, rfl⟩
  | langStr a b => exact ⟨h, rfl⟩
  | nonev => exact ⟨h, rfl⟩
  | pylist l => exact ⟨h, rfl⟩


theorem partA (fuel : Nat) (IH : ∀ g, g < fuel → ParseOK g) :
    ∀ t i, acceptT t i = .yes → wfItemPlain i = true → 1 + costIt i ≤ fuel →
    decodeVal vocab fuel t (serItem i) = .ok i := by
  intro t i hy hw hf
  obtain ⟨g, rfl⟩ : ∃ g, fuel = g + 1 := ⟨fuel - 1, by omega⟩
  cases t with
  | strT => cases i <;> first | rfl | simp [acceptT] at hy
  | boolT => cases i <;> first | rfl | simp [acceptT] at hy
  | intT =>
      cases i <;>
        first
          | rfl
          | (simp only [acceptT] at hy
             unfold intAcc at hy
             split at hy <;> cases hy)
          | simp [acceptT] at hy
  | datetimeT => cases i <;> first | rfl | simp [acceptT] at hy
  | durationT => cases i <;> first | rfl | simp [acceptT] at hy
  | languageT => cases i <;> first | rfl | simp [acceptT] at hy
  | langStrT => cases i <;> first | rfl | simp [acceptT] at hy
  | entityRefT => cases i <;> simp [acceptT] at hy
  | noneT => cases i <;> simp [acceptT] at hy
  | badT => cases i <;> simp [acceptT] at hy
  | clsT c2 =>
      cases i with
      | ent e =>
          have hw2 : wfEntB e = true := hw
          have hcost : costE e ≤ g := by
            have h2 : costIt (Item.ent e) = costE e := rfl
            omega
          have hI := (IH g (by omega)).2.2.2.2.2.2.2 e c2 hw2 hy hcost
          have hexp : expandJson (serDoc e) = .ok (serDoc e) :=
            serIdemAux (costE e) e le_rfl hw2
          show Except.bind (expandJson (serDoc e))
            (fun v2 => (parseDoc vocab g c2 v2).map Item.ent) =
            Except.ok (Item.ent e)
          rw [hexp]
          show (parseDoc vocab g c2 (serDoc e)).map Item.ent =
            Except.ok (Item.ent e)
          rw [hI]
          rfl
      | _ => simp [acceptT] at hy


theorem decodeVal_int_str (g : Nat) (v : Json) (s : String)
    (hv : jsonIndex v "@value" = .ok (.str s))
    (m : String) (hpi : pyIntOfString s = .error (.valueError m)) :
    decodeVal vocab (g + 1) RType.intT v = .error (.valueError m) := by
  show (do
    let x ← jsonIndex v "@value"
    let n ← pyIntJ x
    Except.ok (Item.intv n)) = Except.error (PyErr.valueError m)
  rw [hv]
  show Except.bind (pyIntOfString s)
    (fun n => Except.ok (Item.intv n)) = _
  rw [hpi]
  rfl

theorem partB (fuel : Nat) (IH : ∀ g, g < fuel → ParseOK g) :
    ∀ t i, acceptT t i = .skip → wfItemPlain i = true → 2 ≤ fuel →
    ∃ m, decodeVal vocab fuel t (serItem i) = .error (.valueError m) := by
  intro t i hy hw hf
  obtain ⟨g2, rfl⟩ : ∃ g2, fuel = g2 + 2 := ⟨fuel - 2, by omega⟩
  have hint : ∀ s : String, intAcc s = Accept3.skip →
      ∃ m, pyIntOfString s = .error (.valueError m) := by
    intro s hs
    unfold intAcc at hs
    split at hs
    · cases hs
    · rename_i e heq
      rcases pyIntOfString_cases s with ⟨k, hk⟩ | herr
      · rw [hk] at heq; cases heq
      · rw [herr] at heq
        cases heq
        exact ⟨_, herr⟩
  cases t with
  | entityRefT => exact ⟨_, rfl⟩
  | noneT => exact ⟨_, rfl⟩
  | intT =>
      cases i with
      | str s =>
          have hs : intAcc s = Accept3.skip := by simpa [acceptT] using hy
          obtain ⟨m, hm⟩ := hint s hs
          exact ⟨m, decodeVal_int_str (g2 + 1) (serItem (Item.str s)) s rfl m hm⟩
      | dt s =>
          have hs : intAcc s = Accept3.skip := by simpa [acceptT] using hy
          obtain ⟨m, hm⟩ := hint s hs
          exact ⟨m, decodeVal_int_str (g2 + 1) (serItem (Item.dt s)) s rfl m hm⟩
      | duration s =>
          have hs : intAcc s = Accept3.skip := by simpa [acceptT] using hy
          obtain ⟨m, hm⟩ := hint s hs
          exact ⟨m, decodeVal_int_str (g2 + 1) (serItem (Item.duration s)) s rfl m hm⟩
      | lang s =>
          have hs : intAcc s = Accept3.skip := by simpa [acceptT] using hy
          obtain ⟨m, hm⟩ := hint s hs
          exact ⟨m, decodeVal_int_str (g2 + 1) (serItem (Item.lang s)) s rfl m hm⟩
      | langStr s tag =>
          have hs : intAcc s = Accept3.skip := by simpa [acceptT] using hy
          obtain ⟨m, hm⟩ := hint s hs
          exact ⟨m, decodeVal_int_str (g2 + 1) (serItem (Item.langStr s tag)) s rfl m hm⟩
      | _ => simp [acceptT] at hy
  | clsT c2 =>
      cases i with
      | ent e =>
          have hwe : wfEntB e = true := hw
          have hexp : expandJson (serDoc e) = .ok (serDoc e) :=
            serIdemAux (costE e) e le_rfl hwe
          obtain ⟨ue, uc, hue, huc, hc, hu, hreg⟩ := acceptT_clsT_skip c2 e hy
          obtain ⟨c, vs, ex⟩ := e
          have hcne : c2 ≠ "Entity" := by
            intro h2
            subst h2
            rw [uriOf_Entity] at huc
            cases huc
          have hue2 : vocab.uriOf c = some ue := hue
          refine ⟨"expected type " ++ uc, ?_⟩
          show Except.bind (expandJson (serDoc (Ent.mk c vs ex)))
            (fun v2 => (parseDoc vocab (g2 + 1) c2 v2).map Item.ent) = _
          rw [hexp]
          show (parseDoc vocab (g2 + 1) c2
            (serDoc (Ent.mk c vs ex))).map Item.ent = _
          have hpd : parseDoc vocab (g2 + 1) c2 (serDoc (Ent.mk c vs ex)) =
              .error (.valueError ("expected type " ++ uc)) := by
            have hget : alist.get
                (("@type", Json.arr [Json.str ((vocab.uriOf c).getD "")]) ::
                  serValues vs) "@type" =
                some (.arr [Json.str ((vocab.uriOf c).getD "")]) := rfl
            have hcont : containsStr [Json.str ((vocab.uriOf c).getD "")]
                uc = false := by
              rw [hue2]
              show containsStr [Json.str ue] uc = false
              simp only [containsStr, List.any_cons, List.any_nil,
                Bool.or_false]
              simp only [decide_eq_false_iff_not]
              exact fun h => hu h.symm
            have hfd : findDispatch vocab c2
                [Json.str ((vocab.uriOf c).getD "")] = Option.none := by
              rw [hue2]
              show findDispatch vocab c2 [Json.str ue] = Option.none
              rw [findDispatch]
              rcases hreg with hnone | ⟨c3, hsome, hsub⟩
              · simp only [hnone]
                rfl
              · simp only [hsome, hsub, Bool.false_eq_true, if_false]
                rfl
            simp only [serDoc, parseDoc, hget]
            rw [if_neg hcne]
            simp only [huc, hcont, Bool.false_eq_true, if_false, hfd]
          rw [hpd]
          rfl
      | _ => simp [acceptT] at hy
  | strT => cases i <;> simp [acceptT] at hy
  | boolT => cases i <;> simp [acceptT] at hy
  | datetimeT => cases i <;> simp [acceptT] at hy
  | durationT => cases i <;> simp [acceptT] at hy
  | languageT => cases i <;> simp [acceptT] at hy
  | langStrT => cases i <;> simp [acceptT] at hy
  | badT => cases i <;> simp [acceptT] at hy


theorem partC (fuel : Nat) (IH : ∀ g, g < fuel → ParseOK g) :
    ∀ tys i, conformsB tys i = true → wfItemPlain i = true →
    tys.length + 1 + costIt i ≤ fuel →
    tryTypes vocab fuel tys (serItem i) = .ok (some i) := by
  intro tys i hc hw hf
  cases tys with
  | nil => rw [conformsB] at hc; cases hc
  | cons t rest =>
      obtain ⟨g, rfl⟩ : ∃ g, fuel = g + 1 := ⟨fuel - 1, by omega⟩
      have hok := IH g (by omega)
      rw [conformsB] at hc
      split at hc
      · rename_i hy
        have hA2 := hok.1 t i hy hw (by
          simp only [List.length_cons] at hf
          omega)
        simp only [tryTypes]
        rw [hA2]
      · rename_i hs
        have hrest1 : 1 ≤ rest.length := by
          cases rest with
          | nil => rw [conformsB] at hc; cases hc
          | cons a b => simp
        obtain ⟨m, hm⟩ := hok.2.1 t i hs hw (by
          simp only [List.length_cons] at hf
          omega)
        simp only [tryTypes]
        rw [hm]
        exact hok.2.2.1 rest i hc hw (by
          simp only [List.length_cons] at hf
          omega)
      · cases hc

theorem partD (fuel : Nat) (IH : ∀ g, g < fuel → ParseOK g) :
    ∀ tys xs, wfItemsB tys xs = true → costPP tys.length xs ≤ fuel →
    pluralParse vocab fuel tys (serItems xs) = .ok xs := by
  intro tys xs hwf hf
  obtain ⟨g, rfl⟩ : ∃ g, fuel = g + 1 := ⟨fuel - 1, by
    have : 1 ≤ costPP tys.length xs := by
      cases xs <;> (rw [costPP]; all_goals omega)
    omega⟩
  have hok := IH g (by omega)
  cases xs with
  | nil => rfl
  | cons x rest =>
      have hstep : (wfItemB tys x && wfItemsB tys rest) = true := hwf
      simp only [Bool.and_eq_true] at hstep
      have hcost : costPP tys.length (x :: rest) =
          1 + max (tys.length + 1 + costIt x) (costPP tys.length rest) :=
        rfl
      have h1 := Nat.le_max_left (tys.length + 1 + costIt x)
        (costPP tys.length rest)
      have h2 := Nat.le_max_right (tys.length + 1 + costIt x)
        (costPP tys.length rest)
      have hD2 := hok.2.2.2.1 tys rest hstep.2 (by omega)
      by_cases href : ∃ r, x = Item.ref r
      · obtain ⟨r, rfl⟩ := href
        show pluralParse vocab (g + 1) tys
          (serItem (Item.ref r) :: serItems rest) = _
        simp only [pluralParse, isIdOnly_ref]
        rw [hD2]
        rfl
      · have hr : ∀ r, x ≠ Item.ref r := by
          intro r h2
          exact href ⟨r, h2⟩
        obtain ⟨hcf, hwp⟩ := wfItemB_parts tys x hstep.1 hr
        have hC2 := hok.2.2.1 tys x hcf hwp (by omega)
        show pluralParse vocab (g + 1) tys
          (serItem x :: serItems rest) = _
        simp only [pluralParse, isIdOnly_nonref x hr]
        rw [hC2]
        show (do
          let is ← pluralParse vocab g tys (serItems rest)
          Except.ok (x :: is)) = _
        rw [hD2]
        rfl

theorem partE (fuel : Nat) (IH : ∀ g, g < fuel → ParseOK g) :
    ∀ tys x, wfItemB tys x = true → 4 + tys.length + costIt x ≤ fuel →
    singularParse vocab fuel tys [serItem x] = .ok x := by
  intro tys x hwf hf
  obtain ⟨g, rfl⟩ : ∃ g, fuel = g + 1 := ⟨fuel - 1, by omega⟩
  have hok := IH g (by omega)
  by_cases href : ∃ r, x = Item.ref r
  · obtain ⟨r, rfl⟩ := href
    show singularParse vocab (g + 1) tys [serItem (Item.ref r)] = _
    simp only [singularParse, isIdOnly_ref]
  · have hr : ∀ r, x ≠ Item.ref r := by
      intro r h2
      exact href ⟨r, h2⟩
    obtain ⟨hcf, hwp⟩ := wfItemB_parts tys x hwf hr
    have hC2 := hok.2.2.1 tys x hcf hwp (by omega)
    simp only [singularParse, isIdOnly_nonref x hr]
    rw [hC2]
    rfl


theorem partF (fuel : Nat) (IH : ∀ g, g < fuel → ParseOK g) :
    ∀ ds slot, slotDsOk ds slot = true → costDs ds slot ≤ fuel →
    tryDescs vocab fuel ds (serSlot slot) = .ok (expectedKwDs ds slot) := by
  intro ds slot h hf
  induction ds generalizing fuel with
  | nil =>
      cases slot with
      | idv uid => rw [slotDsOk] at h; simp [firstAcceptingId] at h
      | seq xs => rw [slotDsOk] at h; simp [firstAcceptingArr] at h
  | cons d rest ihds =>
      obtain ⟨g2, rfl⟩ : ∃ g2, fuel = g2 + 3 := ⟨fuel - 3, by
        cases slot <;> simp only [costDs, List.length_cons] at hf <;> omega⟩
      have hok : ParseOK (g2 + 2) := IH (g2 + 2) (by omega)
      obtain ⟨dn, dk, du, dsub, dh⟩ := d
      cases slot with
      | idv uid =>
          cases dk with
          | idp =>
              cases dh
              case uriT =>
                show tryDescs vocab (g2 + 3) ({ name := dn, kind := .idp, uri := du, subs := dsub, hint := .uriT } :: rest) (Json.str uid) = _
                simp only [tryDescs]
                rfl
              all_goals
                (show tryDescs vocab (g2 + 3) (_ :: rest) (Json.str uid) = _
                 simp only [tryDescs]
                 exact ihds (g2 + 2) (fun g hg => IH g (by omega)) h (by
                   simp only [costDs, List.length_cons] at hf ⊢
                   omega))
          | plur =>
              have hstep : parsePropJsonld vocab (g2 + 2) { name := dn, kind := .plur, uri := du, subs := dsub, hint := dh } (Json.str uid) = Except.bind (resolvePlural dh) (fun tys2 => .error (.typeError "expanded property value is not a list")) := rfl
              have hpj2 : ∃ m2, parsePropJsonld vocab (g2 + 2) { name := dn, kind := .plur, uri := du, subs := dsub, hint := dh } (Json.str uid) = .error (.typeError m2) := by
                rcases resolvePlural_cases dh with ⟨tys, hrp⟩ | ⟨m, hrp⟩
                · exact ⟨_, by rw [hstep, hrp]; rfl⟩
                · exact ⟨m, by rw [hstep, hrp]; rfl⟩
              obtain ⟨m2, hm2⟩ := hpj2
              show tryDescs vocab (g2 + 3) ({ name := dn, kind := .plur, uri := du, subs := dsub, hint := dh } :: rest) (Json.str uid) = _
              simp only [tryDescs]
              rw [hm2]
              exact ihds (g2 + 2) (fun g hg => IH g (by omega)) h (by
                simp only [costDs, List.length_cons] at hf ⊢
                omega)
          | sing =>
              have hstep : parsePropJsonld vocab (g2 + 2) { name := dn, kind := .sing, uri := du, subs := dsub, hint := dh } (Json.str uid) = Except.bind (resolveSingular dh) (fun tys2 => .error (.typeError "expanded property value is not a list")) := rfl
              have hpj2 : ∃ m2, parsePropJsonld vocab (g2 + 2) { name := dn, kind := .sing, uri := du, subs := dsub, hint := dh } (Json.str uid) = .error (.typeError m2) := by
                rcases resolveSingular_cases dh with ⟨tys, hrs⟩ | ⟨m, hrs⟩
                · exact ⟨_, by rw [hstep, hrs]; rfl⟩
                · exact ⟨m, by rw [hstep, hrs]; rfl⟩
              obtain ⟨m2, hm2⟩ := hpj2
              show tryDescs vocab (g2 + 3) ({ name := dn, kind := .sing, uri := du, subs := dsub, hint := dh } :: rest) (Json.str uid) = _
              simp only [tryDescs]
              rw [hm2]
              exact ihds (g2 + 2) (fun g hg => IH g (by omega)) h (by
                simp only [costDs, List.length_cons] at hf ⊢
                omega)
      | seq xs =>
          cases dk with
          | idp =>
              cases dh <;>
                exact ihds (g2 + 2) (fun g hg => IH g (by omega)) h (by
                  have hc : (rest.length + 1) + 4 +
                      costPP (slotTys rest (Slot.seq xs)).length xs ≤
                      g2 + 3 := hf
                  simp only [costDs]
                  omega)
          | plur =>
              cases dh
              case seqT elem =>
                have h2 : (match resolvePlural (PyType.seqT elem) with
                    | Except.ok tys => wfItemsB tys xs
                    | Except.error _ => false) = true := h
                cases hrp : resolvePlural (PyType.seqT elem) with
                | error err => simp only [hrp] at h2; cases h2
                | ok tys =>
                    simp only [hrp] at h2
                    have hst : slotTys ({ name := dn, kind := .plur, uri := du, subs := dsub, hint := .seqT elem } :: rest) (Slot.seq xs) = tys := by
                      show (resolvePlural (PyType.seqT elem)).toOption.getD [] = tys
                      rw [hrp]
                      rfl
                    have hD := (IH (g2 + 1) (by omega)).2.2.2.1 tys xs h2 (by
                      simp only [costDs, List.length_cons] at hf
                      rw [hst] at hf
                      omega)
                    have hpj2 : parsePropJsonld vocab (g2 + 2) { name := dn, kind := .plur, uri := du, subs := dsub, hint := .seqT elem } (Json.arr (serItems xs)) = .ok (.many xs) := by
                      have hstep : parsePropJsonld vocab (g2 + 2) { name := dn, kind := .plur, uri := du, subs := dsub, hint := .seqT elem } (Json.arr (serItems xs)) = Except.bind (resolvePlural (PyType.seqT elem)) (fun tys2 => Except.map KwArg.many (pluralParse vocab (g2 + 1) tys2 (serItems xs))) := rfl
                      rw [hstep, hrp]
                      show Except.map KwArg.many (pluralParse vocab (g2 + 1) tys (serItems xs)) = _
                      rw [hD]
                      rfl
                    show tryDescs vocab (g2 + 3) ({ name := dn, kind := .plur, uri := du, subs := dsub, hint := .seqT elem } :: rest) (Json.arr (serItems xs)) = _
                    simp only [tryDescs]
                    rw [hpj2]
                    rfl
              all_goals
                exact ihds (g2 + 2) (fun g hg => IH g (by omega)) h (by
                  have hc : (rest.length + 1) + 4 +
                      costPP (slotTys rest (Slot.seq xs)).length xs ≤
                      g2 + 3 := hf
                  simp only [costDs]
                  omega)
          | sing =>
              rcases resolveSingular_cases dh with ⟨tys, hrs⟩ | ⟨m, hrs⟩
              · have hfa : firstAcceptingArr ({ name := dn, kind := .sing, uri := du, subs := dsub, hint := dh } :: rest) = some { name := dn, kind := .sing, uri := du, subs := dsub, hint := dh } := by
                  show (match resolveSingular dh with
                    | Except.ok _ => some ({ name := dn, kind := .sing, uri := du, subs := dsub, hint := dh } : PropSpec)
                    | Except.error _ => firstAcceptingArr rest) = _
                  rw [hrs]
                have h2 : slotDsOk ({ name := dn, kind := .sing, uri := du, subs := dsub, hint := dh } :: rest) (Slot.seq xs) = true := h
                rw [slotDsOk] at h2
                simp only [hfa] at h2
                cases xs with
                | nil => simp at h2
                | cons x xtail =>
                    cases xtail with
                    | cons y ytail => simp at h2
                    | nil =>
                        simp only [hrs] at h2
                        have hst : slotTys ({ name := dn, kind := .sing, uri := du, subs := dsub, hint := dh } :: rest) (Slot.seq [x]) = tys := by
                          rw [slotTys]
                          simp only [hfa]
                          show (resolveSingular dh).toOption.getD [] = tys
                          rw [hrs]
                          rfl
                        have hmax := Nat.le_max_left (tys.length + 1 + costIt x) 1
                        have hcpp : costPP tys.length [x] = 1 + max (tys.length + 1 + costIt x) 1 := rfl
                        have hE := (IH (g2 + 1) (by omega)).2.2.2.2.1 tys x h2 (by
                          simp only [costDs, List.length_cons] at hf
                          rw [hst] at hf
                          omega)
                        have hpj2 : parsePropJsonld vocab (g2 + 2) { name := dn, kind := .sing, uri := du, subs := dsub, hint := dh } (Json.arr (serItems [x])) = .ok (.one x) := by
                          have hstep : parsePropJsonld vocab (g2 + 2) { name := dn, kind := .sing, uri := du, subs := dsub, hint := dh } (Json.arr (serItems [x])) = Except.bind (resolveSingular dh) (fun tys2 => Except.map KwArg.one (singularParse vocab (g2 + 1) tys2 [serItem x])) := rfl
                          rw [hstep, hrs]
                          show Except.map KwArg.one (singularParse vocab (g2 + 1) tys [serItem x]) = _
                          rw [hE]
                          rfl
                        have hekw : expectedKwDs ({ name := dn, kind := .sing, uri := du, subs := dsub, hint := dh } :: rest) (Slot.seq [x]) = some (dn, KwArg.one x) := by
                          rw [expectedKwDs]
                          simp only [hfa]
                          rfl
                        show tryDescs vocab (g2 + 3) ({ name := dn, kind := .sing, uri := du, subs := dsub, hint := dh } :: rest) (Json.arr (serItems [x])) = _
                        simp only [tryDescs]
                        rw [hpj2, hekw]
              · have hpj2 : parsePropJsonld vocab (g2 + 2) { name := dn, kind := .sing, uri := du, subs := dsub, hint := dh } (Json.arr (serItems xs)) = .error (.typeError m) := by
                  have hstep : parsePropJsonld vocab (g2 + 2) { name := dn, kind := .sing, uri := du, subs := dsub, hint := dh } (Json.arr (serItems xs)) = Except.bind (resolveSingular dh) (fun tys2 => Except.map KwArg.one (singularParse vocab (g2 + 1) tys2 (serItems xs))) := rfl
                  rw [hstep, hrs]
                  rfl
                have hfa : firstAcceptingArr ({ name := dn, kind := .sing, uri := du, subs := dsub, hint := dh } :: rest) = firstAcceptingArr rest := by
                  show (match resolveSingular dh with
                    | Except.ok _ => some ({ name := dn, kind := .sing, uri := du, subs := dsub, hint := dh } : PropSpec)
                    | Except.error _ => firstAcceptingArr rest) = _
                  rw [hrs]
                have h2 : slotDsOk rest (Slot.seq xs) = true := by
                  rw [slotDsOk] at h
                  simp only [hfa] at h
                  exact h
                have hekw : expectedKwDs ({ name := dn, kind := .sing, uri := du, subs := dsub, hint := dh } :: rest) (Slot.seq xs) = expectedKwDs rest (Slot.seq xs) := by
                  rw [expectedKwDs, hfa, expectedKwDs]
                have hst : slotTys ({ name := dn, kind := .sing, uri := du, subs := dsub, hint := dh } :: rest) (Slot.seq xs) = slotTys rest (Slot.seq xs) := by
                  rw [slotTys]
                  simp only [hfa]
                  rw [slotTys]
                show tryDescs vocab (g2 + 3) ({ name := dn, kind := .sing, uri := du, subs := dsub, hint := dh } :: rest) (Json.arr (serItems xs)) = _
                simp only [tryDescs]
                rw [hpj2, hekw]
                exact ihds (g2 + 2) (fun g hg => IH g (by omega)) h2 (by
                  simp only [costDs, List.length_cons] at hf ⊢
                  rw [hst] at hf
                  omega)


theorem partG (fuel : Nat) (IH : ∀ g, g < fuel → ParseOK g) :
    ∀ c vs acc ex, wfValuesB c vs = true → costGoT c vs ≤ fuel →
    parsePropsGo vocab c fuel (serValues vs) acc ex =
      .ok (acc ++ kwargsOf c vs, ex) := by
  intro c vs acc ex hwf hf
  obtain ⟨g, rfl⟩ : ∃ g, fuel = g + 1 := ⟨fuel - 1, by
    cases vs <;> rw [costGoT] at hf <;> omega⟩
  have hok := IH g (by omega)
  cases vs with
  | nil =>
      show parsePropsGo vocab c (g + 1) [] acc ex = .ok (acc ++ [], ex)
      simp [parsePropsGo]
  | cons kv rest =>
      obtain ⟨u, s⟩ := kv
      rw [wfValuesB] at hwf
      simp only [Bool.and_eq_true] at hwf
      obtain ⟨⟨-, hws⟩, hwr⟩ := hwf
      have hcost : costGoT c ((u, s) :: rest) =
          1 + max (costSlotT c u s) (costGoT c rest) := rfl
      have h1 := Nat.le_max_left (costSlotT c u s) (costGoT c rest)
      have h2 := Nat.le_max_right (costSlotT c u s) (costGoT c rest)
      have hF := hok.2.2.2.2.2.1 (vocab.urisDescsSorted c u) s
        (wfSlotB_to_ds c u s hws) (by rw [← costSlotT_eq]; omega)
      obtain ⟨⟨name, kw⟩, hekw⟩ := expectedKwDs_isSome
        (vocab.urisDescsSorted c u) s (wfSlotB_to_ds c u s hws)
      have hkw : kwargsOf c ((u, s) :: rest) =
          (name, kw) :: kwargsOf c rest := by
        simp [kwargsOf, hekw]
      have hG := hok.2.2.2.2.2.2.1 c rest (acc ++ [(name, kw)]) ex hwr
        (by omega)
      show parsePropsGo vocab c (g + 1) ((u, serSlot s) :: serValues rest)
        acc ex = _
      simp only [parsePropsGo]
      rw [hF, hekw]
      show parsePropsGo vocab c g (serValues rest) (acc ++ [(name, kw)])
        ex = _
      rw [hG, hkw]
      simp

theorem partI (fuel : Nat) (IH : ∀ g, g < fuel → ParseOK g) :
    ∀ e c2, wfEntB e = true → acceptT (.clsT c2) (.ent e) = .yes →
    costE e ≤ fuel → parseDoc vocab fuel c2 (serDoc e) = .ok e := by
  intro e c2 hwf hacc hf
  obtain ⟨ue, uc, hue, huc, hcase⟩ := acceptT_clsT_yes c2 e hacc
  obtain ⟨c, vs, ex⟩ := e
  have hwf2 : ((vocab.classSpec c).isSome &&
      ex.isEmpty &&
      (vocab.urisDescsSorted c "@type").isEmpty &&
      wfValuesB c vs) = true := hwf
  simp only [Bool.and_eq_true] at hwf2
  obtain ⟨⟨⟨hcs, hex⟩, hty⟩, hwv⟩ := hwf2
  have hex0 : ex = [] := by simpa [List.isEmpty_iff] using hex
  subst hex0
  have hty0 : vocab.urisDescsSorted c "@type" = [] := by
    simpa [List.isEmpty_iff] using hty
  have hcg1 : 1 ≤ costGoT c vs := by
    cases vs <;> (rw [costGoT]; all_goals omega)
  have hce : costE (Ent.mk c vs []) = 3 + costGoT c vs := rfl
  obtain ⟨g, rfl⟩ : ∃ g, fuel = g + 4 := ⟨fuel - 4, by omega⟩
  have hue2 : vocab.uriOf c = some ue := hue
  have hgd : (vocab.uriOf c).getD "" = ue := by rw [hue2]; rfl
  have hcne : c2 ≠ "Entity" := by
    intro h2
    subst h2
    rw [uriOf_Entity] at huc
    cases huc
  have hget : alist.get
      (("@type", Json.arr [Json.str ((vocab.uriOf c).getD "")]) ::
        serValues vs) "@type" =
      some (.arr [Json.str ((vocab.uriOf c).getD "")]) := rfl
  have hG := (IH (g + 1) (by omega)).2.2.2.2.2.2.1 c vs [] [] hwv
    (by omega)
  have hcore : parseProps vocab c (g + 3)
      (("@type", Json.arr [Json.str ((vocab.uriOf c).getD "")]) ::
        serValues vs) = .ok (Ent.mk c vs []) := by
    simp only [parseProps]
    have hstep1 : parsePropsGo vocab c (g + 2)
        (("@type", Json.arr [Json.str ((vocab.uriOf c).getD "")]) ::
          serValues vs) [] [] =
        parsePropsGo vocab c (g + 1) (serValues vs) [] [] := by
      simp only [parsePropsGo, hty0]
      rfl
    rw [hstep1, hG]
    show entityInit vocab c ([] ++ kwargsOf c vs) [] = _
    rw [List.nil_append]
    exact entityInit_restore c vs hwv
  show parseDoc vocab (g + 4) c2 (Json.obj
    (("@type", Json.arr [Json.str ((vocab.uriOf c).getD "")]) ::
      serValues vs)) = _
  simp only [parseDoc, hget]
  rw [if_neg hcne]
  simp only [huc]
  rcases hcase with ⟨hc2, hueq⟩ | ⟨hne, hneq, hreg, hsub⟩
  · have hc2c : c2 = c := hc2
    subst hc2c
    have hcont : containsStr [Json.str ((vocab.uriOf c2).getD "")] uc =
        true := by
      rw [hgd]
      subst hueq
      simp [containsStr]
    simp only [hcont, if_true]
    exact hcore
  · have hcont : containsStr [Json.str ((vocab.uriOf c).getD "")] uc =
        false := by
      rw [hgd]
      simp only [containsStr, List.any_cons, List.any_nil, Bool.or_false]
      simp only [decide_eq_false_iff_not]
      exact fun h2 => hneq h2.symm
    simp only [hcont, Bool.false_eq_true, if_false]
    have hreg2 : alist.get vocab.registry ue = some c := hreg
    have hsub2 : vocab.subClass c c2 = true := hsub
    have hfd : findDispatch vocab c2
        [Json.str ((vocab.uriOf c).getD "")] = some c := by
      rw [hgd]
      show findDispatch vocab c2 [Json.str ue] = some c
      rw [findDispatch]
      simp only [hreg2, hsub2, if_true]
    simp only [hfd]
    exact hcore

theorem parseAux : ∀ fuel, ParseOK fuel := by
  intro fuel
  induction fuel using Nat.strong_induction_on with
  | _ fuel IH =>
      exact ⟨partA fuel IH, partB fuel IH, partC fuel IH, partD fuel IH,
        partE fuel IH, partF fuel IH, partG fuel IH, partI fuel IH⟩


theorem acceptT_self (e : Ent) (h : wfEntB e = true) :
    acceptT (.clsT e.cls) (.ent e) = .yes := by
  obtain ⟨c, vs, ex⟩ := e
  have hwf2 : ((vocab.classSpec c).isSome &&
      ex.isEmpty &&
      (vocab.urisDescsSorted c "@type").isEmpty &&
      wfValuesB c vs) = true := h
  simp only [Bool.and_eq_true] at hwf2
  obtain ⟨⟨⟨hcs, -⟩, -⟩, -⟩ := hwf2
  rw [Option.isSome_iff_exists] at hcs
  obtain ⟨cs, hcs⟩ := hcs
  have huri : vocab.uriOf c = some cs.uri := by
    rw [CTable.uriOf, hcs]
    rfl
  show acceptT (.clsT c) (.ent (.mk c vs ex)) = .yes
  have huri2 : vocab.uriOf (Ent.mk c vs ex).cls = some cs.uri := huri
  simp only [acceptT, huri2, huri]
  simp
  rfl

/-- **C7** (counterexample): two failures of the round trip as stated.
An `Object` built in code with a `LanguageString` name serializes, and
parsing the expanded document back as `Object` succeeds but yields an
entity whose name slot holds the plain string (the `str` member of the
`str | LanguageString` hint is tried first and `str(document["@value"])`
drops the language tag); the two entities compare unequal under the
embedded Python `==`, although no `EntityRef` is involved.  And an
`Object` holding an `EntityRef` attachment does not serialize at all: the
raw document carries the reference object under `"@id"`, and the expansion
aborts with its invalid-`@id` error, so the claim's "EntityRefs may remain
EntityRefs" escape never comes into play on this round trip. -/
theorem c7_counterexample :
    entityInit vocab "Object"
      [("name", .one (.langStr "x" "en"))] [] =
      .ok (.mk "Object"
        [(asU "name", .seq [.langStr "x" "en"])] []) ∧
    (∃ d, entJsonldExpand vocab.clsUris
        (.mk "Object" [(asU "name", .seq [.langStr "x" "en"])] []) =
          .ok d ∧
      fromJsonld vocab 50 "Object" d =
        .ok (.mk "Object" [(asU "name", .seq [.str "x"])] [])) ∧
    pyEqEnt (.mk "Object" [(asU "name", .seq [.str "x"])] [])
      (.mk "Object" [(asU "name", .seq [.langStr "x" "en"])] []) =
      false ∧
    pyEqEnt (.mk "Object" [(asU "name", .seq [.langStr "x" "en"])] [])
      (.mk "Object" [(asU "name", .seq [.str "x"])] []) = false ∧
    entityInit vocab "Object"
      [("attachment", .one (.ref "https://example.com/a"))] [] =
      .ok (.mk "Object"
        [(asU "attachment", .seq [.ref "https://example.com/a"])] []) ∧
    entJsonldExpand vocab.clsUris
      (.mk "Object"
        [(asU "attachment", .seq [.ref "https://example.com/a"])] []) =
      .error (.jsonLdError "invalid @id value") :=
  ⟨rfl, ⟨_, rfl, rfl⟩, rfl, rfl, rfl, rfl⟩

/-- **C7** (amended): on the well-formed, `EntityRef`-free fragment — every
slot nonempty and registered under its class, every item decoding back to
itself under its property's candidate types (which excludes
`LanguageString` items under `str | LanguageString` hints and scalar items
mismatching their hint), and no `EntityRef` item anywhere (an `EntityRef`
makes the serialization itself abort on its non-string `@id` value) —
serialization expands to a document that `Entity.__from_jsonld__`, run as
the entity's own class with any sufficient recursion budget, parses back
to exactly the original entity, and the entity is `==`-equal to it. -/
theorem c7_roundtrip (e : Ent) (h : wfEntB e = true)
    (hrf : refFreeE e = true) :
    ∃ d, entJsonldExpand vocab.clsUris e = .ok d ∧
      ∀ fuel, costE e ≤ fuel →
        fromJsonld vocab fuel e.cls d = .ok e ∧ pyEqEnt e e = true := by
  have hsh := serShapeAux (costE e) e (le_refl _) h hrf
  refine ⟨serDoc e, ?_, ?_⟩
  · have hdef : entJsonldExpand vocab.clsUris e =
        Except.bind (entJsonldRaw vocab.clsUris e) expandJson := rfl
    rw [hdef, hsh.1]
    show expandJson (rawDoc e) = _
    rw [hsh.2.1]
  · intro fuel hfuel
    refine ⟨?_, pyEqReflAux (costE e) e (le_refl _) h⟩
    have hdef2 : fromJsonld vocab fuel e.cls (serDoc e) =
        Except.bind (expandJson (serDoc e))
          (fun d2 => parseDoc vocab fuel e.cls d2) := rfl
    rw [hdef2, hsh.2.2]
    show parseDoc vocab fuel e.cls (serDoc e) = _
    exact (parseAux fuel).2.2.2.2.2.2.2 e e.cls h (acceptT_self e h) hfuel

theorem c7_roundtrip_witness :
    ∃ d, entJsonldExpand vocab.clsUris
        (Ent.mk "Note" [(asU "content", .seq [.str "hi"])] []) = .ok d ∧
      ∀ fuel,
        costE (Ent.mk "Note" [(asU "content", .seq [.str "hi"])] []) ≤
          fuel →
        fromJsonld vocab fuel
          (Ent.mk "Note" [(asU "content", .seq [.str "hi"])] []).cls d =
          .ok (Ent.mk "Note" [(asU "content", .seq [.str "hi"])] []) ∧
        pyEqEnt (Ent.mk "Note" [(asU "content", .seq [.str "hi"])] [])
          (Ent.mk "Note" [(asU "content", .seq [.str "hi"])] []) = true :=
  c7_roundtrip (Ent.mk "Note" [(asU "content", .seq [.str "hi"])] []) rfl rfl

end Fedikit
